import Mathlib

/-!
Verification of the ferelix-server media server against its specification.

The Python sources are shallowly embedded: pure functions become Lean
functions, database sessions become explicit lists of rows that are threaded
through the code, machine floats become rationals, fallible paths become
Option/Except-style results.  Each definition mirrors one Python function and
names it in its doc comment.
-/

namespace Ferelix

/-- Truncation toward zero, the semantics of Python int() applied to a float. -/
def pyTrunc (q : ℚ) : ℤ :=
  if q < 0 then -((-q).floor) else q.floor

/-- Numeric value of a run of decimal digit characters. -/
def digitsToNat (cs : List Char) : ℕ :=
  cs.foldl (fun a c => 10 * a + (c.toNat - 48)) 0

/-- Splitting of a character list on a non-empty separator, the semantics of
Python str.split with a separator argument.  The fuel argument (instantiated
with more than the list length) only makes the left-to-right scan structural;
it is never exhausted for a non-empty separator. -/
def pySplitChars (sep : List Char) : ℕ → List Char → List Char → List (List Char)
  | 0, rest, acc => [acc.reverse ++ rest]
  | _ + 1, [], acc => [acc.reverse]
  | fuel + 1, c :: rest, acc =>
    if sep.isPrefixOf (c :: rest) then
      acc.reverse :: pySplitChars sep fuel ((c :: rest).drop sep.length) []
    else pySplitChars sep fuel rest (c :: acc)

/-- Python str.split(sep) for a non-empty separator. -/
def pySplit (s sep : String) : List String :=
  (pySplitChars sep.data (s.data.length + 1) s.data []).map String.mk

/-- Python str.replace(old, new): replace every non-overlapping occurrence
left to right, which is joining the split pieces with the replacement. -/
def pyReplace (s old new : String) : String :=
  String.mk (List.intercalate new.data (pySplitChars old.data (s.data.length + 1) s.data []))

/-- Python str.strip() restricted to ASCII whitespace. -/
def pyTrim (s : String) : String :=
  String.mk (((s.data.dropWhile Char.isWhitespace).reverse.dropWhile
    Char.isWhitespace).reverse)

/-- Python str.startswith(pre). -/
def pyStartsWith (s pre : String) : Bool :=
  pre.data.isPrefixOf s.data

/-- Python str.lower() restricted to ASCII letters. -/
def pyLower (s : String) : String :=
  String.mk (s.data.map Char.toLower)

/-- Python float(string) restricted to plain decimal literals: optional sign,
an integer part and an optional fractional part, with surrounding whitespace
ignored.  Exponent, infinity and nan forms do not occur in device profiles and
are not modelled; on any other input the parser returns none, matching the
ValueError branch of the callers. -/
def pyFloatOfString (s : String) : Option ℚ :=
  let cs := (pyTrim s).data
  let sign : ℚ := if cs.head? = some '-' then -1 else 1
  let cs := if cs.head? = some '-' || cs.head? = some '+' then cs.tail else cs
  let intPart := cs.takeWhile Char.isDigit
  let rest := cs.dropWhile Char.isDigit
  if rest.isEmpty then
    if intPart.isEmpty then none else some (sign * digitsToNat intPart)
  else if rest.head? = some '.' then
    let frac := rest.tail
    if frac.all Char.isDigit && !(intPart.isEmpty && frac.isEmpty) then
      some (sign * ((digitsToNat intPart : ℚ) +
        (digitsToNat frac : ℚ) / (10 : ℚ) ^ frac.length))
    else none
  else none

/-- Python int(string): optional sign and decimal digits, whitespace stripped;
none models the ValueError raised on any other input. -/
def pyIntParse (s : String) : Option ℤ :=
  let cs := (pyTrim s).data
  let sign : ℤ := if cs.head? = some '-' then -1 else 1
  let cs := if cs.head? = some '-' || cs.head? = some '+' then cs.tail else cs
  if cs.isEmpty || !(cs.all Char.isDigit) then none
  else some (sign * digitsToNat cs)


/-- Python substring containment (pat in s) for a non-empty pattern: the
pattern occurs in s iff splitting on it yields more than one piece. -/
def containsSub (s pat : String) : Bool :=
  (pySplit s pat).length > 1

end Ferelix

namespace Ferelix.SB

/-! Embedding of server/app/services/stream_builder.py and the data shapes it
reads from server/app/models/playback.py and app/models/media_file.py.  Only
the fields and response components that the playback-decision claims mention
are embedded; presentation-only outputs of build_stream_info (MediaStreams,
AvailableResolutions and the static Id/Path/Protocol fields) are left out. -/

/-- PlayMethod enum from app/models/playback.py. -/
inductive PlayMethod where
  | directPlay
  | directStream
  | transcode
deriving DecidableEq, Repr

/-- TranscodeReason enum from app/models/playback.py. -/
inductive TranscodeReason where
  | containerNotSupported
  | videoCodecNotSupported
  | audioCodecNotSupported
  | subtitleCodecNotSupported
  | videoProfileNotSupported
  | videoLevelNotSupported
  | videoResolutionNotSupported
  | videoBitDepthNotSupported
  | videoFramerateNotSupported
  | videoBitrateNotSupported
  | videoRangeNotSupported
  | audioChannelsNotSupported
  | audioSampleRateNotSupported
  | audioBitrateNotSupported
  | videoDisabled
  | audioTranscodeRequired
  | directPlayError
  | unknownVideoStreamInfo
  | unknownAudioStreamInfo
deriving DecidableEq, Repr

/-- DeviceProfileCondition from app/models/playback.py. -/
structure DeviceProfileCondition where
  Condition : String
  Property : String
  Value : String
  IsRequired : Bool := false
deriving DecidableEq, Repr

/-- DirectPlayProfile from app/models/playback.py.  The Python field Type is
a reserved word in Lean and is embedded as profileType. -/
structure DirectPlayProfile where
  profileType : String
  Container : String
  VideoCodec : Option String := none
  AudioCodec : Option String := none
deriving DecidableEq, Repr

/-- CodecProfile from app/models/playback.py (field Type as profileType). -/
structure CodecProfile where
  profileType : String
  Codec : String
  Conditions : List DeviceProfileCondition := []
deriving DecidableEq, Repr

/-- The two device-profile lists the StreamBuilder constructor keeps. -/
structure DeviceProfileData where
  DirectPlayProfiles : List DirectPlayProfile := []
  CodecProfiles : List CodecProfile := []
deriving DecidableEq, Repr

/-- A video or audio track row (app/models/media_file.py), restricted to the
attributes the stream builder reads.  Python accesses both track kinds by
duck typing, so one structure serves both.  Every attribute except the two
colour fields is read through getattr with default None, so a NULL database
value and an absent attribute coincide in one Option.  color_space and
color_primaries are read through getattr with default "" and then
lowercased, so three states matter and they are modelled as a double Option:
outer none is the absent attribute (an audio track row, where the getattr
default "" applies), some none is the attribute present with a NULL value
(the VideoTrack columns are nullable; the getattr default does not apply and
None.lower() raises AttributeError), and some (some s) is a stored string. -/
structure MediaTrack where
  codec : Option String := none
  width : Option ℤ := none
  height : Option ℤ := none
  bitrate : Option ℤ := none
  bit_depth : Option ℤ := none
  profile : Option String := none
  level : Option String := none
  color_space : Option (Option String) := some none
  color_primaries : Option (Option String) := some none
  channels : Option ℤ := none
  sample_rate : Option ℤ := none
deriving DecidableEq, Repr

/-- MediaFile row restricted to what build_stream_info reads. -/
structure MediaFileRec where
  id : ℤ
  file_path : String := ""
  file_name : String := ""
  file_extension : String := ""
  duration : Option ℚ := none
  bitrate : Option ℤ := none
  video_tracks : List MediaTrack := []
  audio_tracks : List MediaTrack := []
deriving DecidableEq, Repr

/-- A track property value as seen by the condition evaluator: either numeric
(int columns) or a string (str columns and the derived VideoRange). -/
inductive Val where
  | num (q : ℚ)
  | vstr (s : String)
deriving DecidableEq, Repr

/-- Python str() of a track property value.  Track data only carries integral
numerics, whose Python repr is the plain integer literal. -/
def pyStrOfVal : Val → String
  | .num q => if q.den = 1 then toString q.num else toString q
  | .vstr s => s

/-- Python float() of a track property value; none models the ValueError or
TypeError branch. -/
def pyFloatOfVal : Val → Option ℚ
  | .num q => some q
  | .vstr s => pyFloatOfString s

/-- getattr(track, colour_attribute, "").lower(): the empty string for an
absent attribute, the lowercased value for a stored string, and AttributeError
(None.lower(), the getattr default covers only absent attributes) for an
attribute whose column value is NULL. -/
def lowerColourAttr : Option (Option String) → Except Unit String
  | none => .ok ""
  | some none => .error ()
  | some (some s) => .ok (pyLower s)

/-- StreamBuilder.GetVideoRange: classify the first video track as HDR or SDR
from its colour metadata.  color_space is read (and can raise) first, then
color_primaries; the track model has no transfer_characteristics attribute
at all, so that component is always the getattr default "". -/
def getVideoRange (t : MediaTrack) : Except Unit String :=
  match lowerColourAttr t.color_space with
  | .error e => .error e
  | .ok cs =>
    match lowerColourAttr t.color_primaries with
    | .error e => .error e
    | .ok cp =>
      let tc := ""
      let isHdr :=
        (["bt2020", "rec2020", "smpte2084", "hlg", "arib-std-b67"].any
          (fun i => containsSub cs i))
        || (["bt2020", "rec2020"].any (fun i => containsSub cp i))
        || (["smpte2084", "arib-std-b67", "hlg"].any (fun i => containsSub tc i))
      .ok (if isHdr then "HDR" else "SDR")

/-- StreamBuilder.GetTrackPropertyValue: map a condition Property name to the
track attribute it reads (getattr with default None, so a NULL value and an
absent attribute both give ok none); unmapped properties are ok none; the
derived VideoRange propagates the AttributeError of getVideoRange. -/
def getTrackPropertyValue (t : MediaTrack) (p : String) :
    Except Unit (Option Val) :=
  if p = "VideoLevel" then .ok (t.level.map Val.vstr)
  else if p = "Width" then .ok (t.width.map (fun n => Val.num n))
  else if p = "Height" then .ok (t.height.map (fun n => Val.num n))
  else if p = "VideoBitrate" then .ok (t.bitrate.map (fun n => Val.num n))
  else if p = "VideoBitDepth" then .ok (t.bit_depth.map (fun n => Val.num n))
  else if p = "VideoProfile" then .ok (t.profile.map Val.vstr)
  else if p = "VideoRange" then
    match getVideoRange t with
    | .ok s => .ok (some (Val.vstr s))
    | .error e => .error e
  else if p = "AudioChannels" then .ok (t.channels.map (fun n => Val.num n))
  else if p = "AudioSampleRate" then .ok (t.sample_rate.map (fun n => Val.num n))
  else if p = "AudioBitrate" then .ok (t.bitrate.map (fun n => Val.num n))
  else .ok none

/-- StreamBuilder.EvaluateCondition: ok true when the condition FAILS.  A
missing actual value passes, a failed numeric conversion (the caught
ValueError or TypeError) passes, and the property read happens before the
try block, so its AttributeError propagates. -/
def evaluateCondition (t : MediaTrack) (c : DeviceProfileCondition) :
    Except Unit Bool :=
  match getTrackPropertyValue t c.Property with
  | .error e => .error e
  | .ok none => .ok false
  | .ok (some a) =>
    .ok (if c.Condition = "LessThanEqual" then
      match pyFloatOfVal a, pyFloatOfString c.Value with
      | some x, some y => decide (x > y)
      | _, _ => false
    else if c.Condition = "Equals" then
      decide (pyStrOfVal a ≠ c.Value)
    else if c.Condition = "EqualsAny" then
      !((pySplit c.Value "|").contains (pyStrOfVal a))
    else if c.Condition = "GreaterThanEqual" then
      match pyFloatOfVal a, pyFloatOfString c.Value with
      | some x, some y => decide (x < y)
      | _, _ => false
    else false)

/-- StreamBuilder.ConditionToTranscodeReason. -/
def conditionToTranscodeReason (p : String) : Option TranscodeReason :=
  if p = "VideoLevel" then some .videoLevelNotSupported
  else if p = "Width" then some .videoResolutionNotSupported
  else if p = "Height" then some .videoResolutionNotSupported
  else if p = "VideoBitrate" then some .videoBitrateNotSupported
  else if p = "VideoBitDepth" then some .videoBitDepthNotSupported
  else if p = "VideoProfile" then some .videoProfileNotSupported
  else if p = "VideoRange" then some .videoRangeNotSupported
  else if p = "AudioChannels" then some .audioChannelsNotSupported
  else if p = "AudioSampleRate" then some .audioSampleRateNotSupported
  else if p = "AudioBitrate" then some .audioBitrateNotSupported
  else none

/-- The reasons a failing condition appends: its mapped reason when one
exists, nothing otherwise (the source guards the append with if reason). -/
def reasonListOf (c : DeviceProfileCondition) : List TranscodeReason :=
  (conditionToTranscodeReason c.Property).toList

/-- Result pair of the internal playback checks. -/
structure PlaybackResult where
  can_play : Bool
  reasons : List TranscodeReason
deriving DecidableEq, Repr

/-- Inner loop of StreamBuilder.CheckCodecConstraints over the flattened
condition list: a failing required condition stops with can_play false, a
failing non-required condition records its mapped reason and continues, and
an AttributeError raised by a condition evaluation propagates. -/
def checkConditions (t : MediaTrack) :
    List DeviceProfileCondition → Except Unit PlaybackResult
  | [] => .ok ⟨true, []⟩
  | c :: rest =>
    match evaluateCondition t c with
    | .error e => .error e
    | .ok true =>
      if c.IsRequired then .ok ⟨false, reasonListOf c⟩
      else
        match checkConditions t rest with
        | .error e => .error e
        | .ok r => .ok ⟨r.can_play, reasonListOf c ++ r.reasons⟩
    | .ok false => checkConditions t rest

/-- StreamBuilder.CheckCodecConstraints: evaluate the conditions of every
codec profile whose Type and Codec match, in order. -/
def checkCodecConstraints (cps : List CodecProfile) (t : MediaTrack)
    (codec trackType : String) : Except Unit PlaybackResult :=
  checkConditions t
    ((cps.filter (fun p => p.profileType == trackType && p.Codec == codec)).flatMap
      (fun p => p.Conditions))

/-- Codec string of a track with Python falsiness: None and "" both count as
missing. -/
def trackCodecStr (t : MediaTrack) : Option String :=
  match t.codec with
  | some c => if c = "" then none else some c
  | none => none

/-- StreamBuilder.CheckVideoCodecSupport. -/
def checkVideoCodecSupport (dp : DeviceProfileData) (t : MediaTrack)
    (targetContainer : Option String) : Except Unit PlaybackResult :=
  match trackCodecStr t with
  | none => .ok ⟨false, [.unknownVideoStreamInfo]⟩
  | some codec =>
    let container := targetContainer.getD "mp4"
    let codecSupported := dp.DirectPlayProfiles.any (fun p =>
      p.profileType == "Video" &&
      (match p.VideoCodec with
       | some vc => vc != "" && (pySplit p.Container ",").contains container &&
           (pySplit vc ",").contains codec
       | none => false))
    if !codecSupported then .ok ⟨false, [.videoCodecNotSupported]⟩
    else
      match checkCodecConstraints dp.CodecProfiles t codec "Video" with
      | .error e => .error e
      | .ok cr => .ok (if !cr.can_play then ⟨false, cr.reasons⟩ else ⟨true, []⟩)

/-- StreamBuilder.CheckAudioCodecSupport. -/
def checkAudioCodecSupport (dp : DeviceProfileData) (t : MediaTrack)
    (targetContainer : Option String) : Except Unit PlaybackResult :=
  match trackCodecStr t with
  | none => .ok ⟨false, [.unknownAudioStreamInfo]⟩
  | some codec =>
    let container := targetContainer.getD "mp4"
    let codecSupported := dp.DirectPlayProfiles.any (fun p =>
      (match p.AudioCodec with
       | some ac => ac != "" && (pySplit ac ",").contains codec
       | none => false) &&
      (p.profileType == "Audio" ||
        (p.profileType == "Video" && (pySplit p.Container ",").contains container)))
    if !codecSupported then .ok ⟨false, [.audioCodecNotSupported]⟩
    else
      match checkCodecConstraints dp.CodecProfiles t codec "Audio" with
      | .error e => .error e
      | .ok cr => .ok (if !cr.can_play then ⟨false, cr.reasons⟩ else ⟨true, []⟩)

/-- StreamBuilder.IsContainerSupported. -/
def isContainerSupported (dp : DeviceProfileData) (container mediaType : String) :
    Bool :=
  dp.DirectPlayProfiles.any (fun p =>
    (p.profileType == mediaType || mediaType == "Video") &&
    ((pySplit p.Container ",").map (fun c => pyLower (pyTrim c))).contains
      (pyLower container))

/-- Container string of a media file: the extension with leading dots
stripped (lstrip over its characters), or "unknown" when the extension is
falsy. -/
def containerOf (m : MediaFileRec) : String :=
  if m.file_extension = "" then "unknown"
  else String.mk (m.file_extension.data.dropWhile (fun c => c == '.'))

/-- StreamBuilder.CheckDirectPlay. -/
def checkDirectPlay (dp : DeviceProfileData) (m : MediaFileRec) :
    Except Unit PlaybackResult :=
  if !isContainerSupported dp (containerOf m) "Video" then
    .ok ⟨false, [.containerNotSupported]⟩
  else
    let checkAudio : Except Unit PlaybackResult :=
      match m.audio_tracks.head? with
      | some at2 =>
        match checkAudioCodecSupport dp at2 none with
        | .error e => .error e
        | .ok ar => .ok (if !ar.can_play then ⟨false, ar.reasons⟩ else ⟨true, []⟩)
      | none => .ok ⟨true, []⟩
    match m.video_tracks.head? with
    | some vt =>
      match checkVideoCodecSupport dp vt none with
      | .error e => .error e
      | .ok vr => if !vr.can_play then .ok ⟨false, vr.reasons⟩ else checkAudio
    | none => checkAudio

/-- StreamBuilder.CheckDirectStream (remux compatibility against mp4). -/
def checkDirectStream (dp : DeviceProfileData) (m : MediaFileRec) :
    Except Unit PlaybackResult :=
  let checkAudio : Except Unit PlaybackResult :=
    match m.audio_tracks.head? with
    | some at2 =>
      match checkAudioCodecSupport dp at2 (some "mp4") with
      | .error e => .error e
      | .ok ar => .ok (if !ar.can_play then ⟨false, ar.reasons⟩ else ⟨true, []⟩)
    | none => .ok ⟨true, []⟩
  match m.video_tracks.head? with
  | some vt =>
    match checkVideoCodecSupport dp vt (some "mp4") with
    | .error e => .error e
    | .ok vr => if !vr.can_play then .ok ⟨false, vr.reasons⟩ else checkAudio
  | none => checkAudio

/-- StreamBuilder.NeedsAudioTranscode: (video_ok, audio_ok) for the remux
target mp4; the video check runs (and can raise) before the audio check. -/
def needsAudioTranscode (dp : DeviceProfileData) (m : MediaFileRec) :
    Except Unit (Bool × Bool) :=
  let videoOk : Except Unit Bool :=
    match m.video_tracks.head? with
    | some vt =>
      match checkVideoCodecSupport dp vt (some "mp4") with
      | .error e => .error e
      | .ok vr => .ok vr.can_play
    | none => .ok true
  match videoOk with
  | .error e => .error e
  | .ok v =>
    match m.audio_tracks.head? with
    | some at2 =>
      match checkAudioCodecSupport dp at2 (some "mp4") with
      | .error e => .error e
      | .ok ar => .ok (v, ar.can_play)
    | none => .ok (v, true)

/-- TranscodeSettings from app/models/playback.py. -/
structure TranscodeSettings where
  VideoCodec : Option String := none
  AudioCodec : Option String := none
  VideoBitrate : Option ℤ := none
  AudioBitrate : Option ℤ := none
  MaxWidth : Option ℤ := none
  MaxHeight : Option ℤ := none
  IsRemuxOnly : Bool := false
deriving DecidableEq, Repr

/-- StreamInfo restricted to the decision fields the claims talk about. -/
structure StreamInfo where
  PlayMethod : PlayMethod
  TranscodeReasons : List TranscodeReason := []
  IsRemuxOnly : Bool := false
  DirectStreamUrl : Option String := none
  TranscodingUrl : Option String := none
  Container : String := "unknown"
  TranscodingContainer : Option String := none
  TranscodingVideoCodec : Option String := none
  TranscodingAudioCodec : Option String := none
  TranscodingType : Option String := none
  TranscodeSettings : Option TranscodeSettings := none
  RunTimeTicks : Option ℤ := none
  Bitrate : Option ℤ := none
deriving DecidableEq, Repr

/-- The requested_resolution dictionary: .get of its width and height keys.
An absent override is Option.none on the caller side; a present dictionary is
truthy. -/
structure RequestedResolution where
  width : Option ℤ := none
  height : Option ℤ := none
deriving DecidableEq, Repr

/-- RunTimeTicks computation: int(duration * 10_000_000) when the duration is
truthy (a zero duration is falsy in Python and yields None). -/
def runtimeTicks (d : Option ℚ) : Option ℤ :=
  match d with
  | some q => if q ≠ 0 then some (pyTrunc (q * 10000000)) else none
  | none => none

/-- StreamBuilder.build_stream_info, mirroring the short-circuit order of the
source: manual resolution override, direct play, direct stream, audio-only
transcode, full transcode, and the transcode-disallowed fallback.  Each check
runs only when its enable flag allows it (a disabled check cannot raise), and
an AttributeError raised inside a check propagates out of the endpoint. -/
def build_stream_info (dp : DeviceProfileData) (m : MediaFileRec)
    (enable_direct_play enable_direct_stream enable_transcoding : Bool)
    (requested_resolution : Option RequestedResolution) : Except Unit StreamInfo :=
  let base : StreamInfo :=
    { PlayMethod := .directPlay
      Container := containerOf m
      RunTimeTicks := runtimeTicks m.duration
      Bitrate := m.bitrate }
  match requested_resolution with
  | some r =>
    .ok { base with
      PlayMethod := .transcode
      TranscodingUrl := some ("/api/v1/stream/" ++ toString m.id ++ "/master.m3u8")
      TranscodingContainer := some "mp4"
      TranscodingVideoCodec := some "h264"
      TranscodingAudioCodec := some "aac"
      TranscodingType := some "full"
      TranscodeSettings := some
        { VideoCodec := some "h264", AudioCodec := some "aac",
          MaxWidth := r.width, MaxHeight := r.height, IsRemuxOnly := false } }
  | none =>
    let fullTranscode (rs : List TranscodeReason) : StreamInfo :=
      if enable_transcoding then
        { base with
          PlayMethod := .transcode
          TranscodingUrl :=
            some ("/api/v1/stream/" ++ toString m.id ++ "/master.m3u8")
          TranscodingContainer := some "mp4"
          TranscodingVideoCodec := some "h264"
          TranscodingAudioCodec := some "aac"
          TranscodingType := some "full"
          TranscodeReasons := rs }
      else
        { base with
          PlayMethod := .transcode
          TranscodingType := some "full"
          TranscodeReasons := rs ++ [.directPlayError] }
    let afterDirectStream (reasons1 : List TranscodeReason) :
        Except Unit StreamInfo :=
      if enable_direct_stream then
        match checkDirectStream dp m with
        | .error e => .error e
        | .ok dsRes =>
          if dsRes.can_play then
            .ok { base with
              PlayMethod := .directStream
              TranscodingUrl := some ("/api/v1/hls/" ++ toString m.id ++ "/remux")
              TranscodingContainer := some "ts"
              TranscodingType := some "remux"
              IsRemuxOnly := true
              TranscodeSettings := some
                { VideoCodec := some "copy", AudioCodec := some "copy",
                  IsRemuxOnly := true }
              TranscodeReasons := reasons1 }
          else
            let reasons2 := reasons1 ++ dsRes.reasons
            match needsAudioTranscode dp m with
            | .error e => .error e
            | .ok vo =>
              if vo.1 && !vo.2 then
                .ok { base with
                  PlayMethod := .transcode
                  TranscodingUrl :=
                    some ("/api/v1/stream/" ++ toString m.id ++ "/master.m3u8")
                  TranscodingContainer := some "ts"
                  TranscodingVideoCodec := some "copy"
                  TranscodingAudioCodec := some "aac"
                  TranscodingType := some "audio-only"
                  TranscodeReasons := reasons2 ++ [.audioTranscodeRequired]
                  TranscodeSettings := some
                    { VideoCodec := some "copy", AudioCodec := some "aac",
                      AudioBitrate := some 128000, IsRemuxOnly := false } }
              else .ok (fullTranscode reasons2)
      else .ok (fullTranscode reasons1)
    if enable_direct_play then
      match checkDirectPlay dp m with
      | .error e => .error e
      | .ok dpRes =>
        if dpRes.can_play then
          .ok { base with
            PlayMethod := .directPlay
            DirectStreamUrl := some ("/api/v1/stream/" ++ toString m.id)
            TranscodeReasons := dpRes.reasons }
        else afterDirectStream dpRes.reasons
    else afterDirectStream []

end Ferelix.SB

namespace Ferelix.Scan

/-! Embedding of scan_library_path from app/services/scanner.py together with
the MediaFile rows it touches (app/models/media_file.py).  The filesystem walk
is supplied as the list of os.walk iterations, each carrying the files of one
directory; the cooperative cancellation flag is supplied as the sequence of
results of the successive is_cancellation_requested polls; the external
ffprobe call (extract_video_metadata) is supplied as a function; the database
session is an explicit list of rows.  Every commit path of the source runs
before the function returns, so the returned row list is the committed
database state. -/

/-- Probe output used for a new file (extract_video_metadata result). -/
structure Metadata where
  duration : Option ℚ := none
  width : Option ℤ := none
  height : Option ℤ := none
  codec : Option String := none
  bitrate : Option ℤ := none
deriving DecidableEq, Repr

/-- MediaFile row (app/models/media_file.py).  The updated_at column has a
creation default and no onupdate hook, so only explicit assignments change
it.  The owned video/audio/subtitle track rows are opaque to this scanner
version, which never reads or writes them; they are carried as an abstract
list so that theorems can observe that they are untouched. -/
structure Row where
  file_path : String
  file_name : String := ""
  file_size : ℤ := 0
  file_extension : String := ""
  duration : Option ℚ := none
  width : Option ℤ := none
  height : Option ℤ := none
  codec : Option String := none
  bitrate : Option ℤ := none
  created_at : ℤ := 0
  updated_at : ℤ := 0
  scanned_at : ℤ := 0
  deleted_at : Option ℤ := none
  tracks : List String := []
deriving DecidableEq, Repr

/-- A directory entry seen by os.walk: its joined path, its file name and its
Path.suffix (with the leading dot), plus its stat size. -/
structure RawFile where
  path : String
  name : String
  suffix : String
  size : ℤ := 0
deriving DecidableEq, Repr

/-- VIDEO_EXTENSIONS from app/services/scanner.py. -/
def VIDEO_EXTENSIONS : List String :=
  [".mp4", ".mkv", ".avi", ".mov", ".webm", ".m4v", ".flv", ".wmv"]

/-- Whether a directory entry passes the extension filter of the walk. -/
def isVideoFile (f : RawFile) : Bool :=
  VIDEO_EXTENSIONS.contains (pyLower f.suffix)

/-- First pass of scan_library_path: walk the directories collecting video
files, polling cancellation before each directory; none means the pass was
cancelled.  The second component is the next poll index. -/
def countFiles (hasJob : Bool) (cancel : ℕ → Bool) :
    List (List RawFile) → ℕ → Option (List RawFile × ℕ)
  | [], k => some ([], k)
  | d :: rest, k =>
    if hasJob && cancel k then none
    else
      match countFiles hasJob cancel rest (k + 1) with
      | none => none
      | some (fs, k2) => some (d.filter isVideoFile ++ fs, k2)

/-- The full enumeration result of a walk, ignoring cancellation: what
countFiles returns whenever it completes. -/
def allVideoFiles (dirs : List (List RawFile)) : List RawFile :=
  dirs.flatMap (fun d => d.filter isVideoFile)

/-- State threaded through the ingest loop of scan_library_path: the session
rows, the scanned_paths set (kept in insertion order), the paths handed to
extract_video_metadata, the three counters, the cancellation flag and the
next poll index. -/
structure IngestState where
  db : List Row
  scanned : List String := []
  probed : List String := []
  newC : ℕ := 0
  updC : ℕ := 0
  resC : ℕ := 0
  cancelled : Bool := false
  k : ℕ := 0
deriving Repr

/-- Replace the first row with the given path, the effect of mutating the
object returned by the find-first query. -/
def replaceFirst (db : List Row) (p : String) (r2 : Row) : List Row :=
  match db with
  | [] => []
  | q :: rest => if q.file_path == p then r2 :: rest else q :: replaceFirst rest p r2

/-- The MediaFile inserted for a new path; the timestamp columns take their
database defaults at commit time. -/
def newRowOf (f : RawFile) (m : Metadata) (tNow : ℤ) : Row :=
  { file_path := f.path
    file_name := f.name
    file_size := f.size
    file_extension := pyLower f.suffix
    duration := m.duration
    width := m.width
    height := m.height
    codec := m.codec
    bitrate := m.bitrate
    created_at := tNow
    updated_at := tNow
    scanned_at := tNow
    deleted_at := none
    tracks := [] }

/-- Body of one ingest iteration of scan_library_path: record the path as
scanned, look it up, then restore or update the existing row (touching only
deleted_at and scanned_at) or probe and insert a new one. -/
def processFile (tNow : ℤ) (probe : String → Metadata) (f : RawFile)
    (s : IngestState) : IngestState :=
  let s := { s with scanned := s.scanned ++ [f.path] }
  match s.db.find? (fun r => r.file_path == f.path) with
  | some r =>
    if r.deleted_at ≠ none then
      { s with
        db := replaceFirst s.db f.path { r with deleted_at := none, scanned_at := tNow }
        resC := s.resC + 1 }
    else
      { s with
        db := replaceFirst s.db f.path { r with scanned_at := tNow }
        updC := s.updC + 1 }
  | none =>
    let m := probe f.path
    { s with
      db := s.db ++ [newRowOf f m tNow]
      probed := s.probed ++ [f.path]
      newC := s.newC + 1 }

/-- Second pass of scan_library_path: process the enumerated files in order,
polling cancellation before each file and breaking out when it is set. -/
def ingest (hasJob : Bool) (cancel : ℕ → Bool) (tNow : ℤ)
    (probe : String → Metadata) : List RawFile → IngestState → IngestState
  | [], s => s
  | f :: rest, s =>
    if hasJob && cancel s.k then { s with cancelled := true, k := s.k + 1 }
    else ingest hasJob cancel tNow probe rest (processFile tNow probe f { s with k := s.k + 1 })

/-- Whether the reap pass soft-deletes a row: not yet soft-deleted, its path a
plain string prefix match against str(library path), and not observed. -/
def reapHits (scanned : List String) (root : String) (r : Row) : Bool :=
  r.deleted_at == none && pyStartsWith r.file_path root && !(scanned.contains r.file_path)

/-- Third pass of scan_library_path applied to one row. -/
def reapRow (scanned : List String) (root : String) (tNow : ℤ) (r : Row) : Row :=
  if reapHits scanned root r then { r with deleted_at := some tNow } else r

/-- Scan statistics dictionary returned by scan_library_path. -/
structure Stats where
  new : ℕ
  updated : ℕ
  deleted : ℕ
  restored : ℕ
  cancelled : Bool
deriving DecidableEq, Repr

/-- Observable outcome of one scan_library_path run: the returned stats, the
committed database, the database as it stood when the reap pass started, the
scanned_paths set and the paths that were probed. -/
structure ScanResult where
  stats : Stats
  db : List Row
  dbBeforeReap : List Row
  processed : List String
  probed : List String
deriving Repr

/-- scan_library_path from app/services/scanner.py.  pathOk is the
path.exists() and path.is_dir() test, root is str(path), dirs the walk,
probe the ffprobe call, hasJob whether a job_id was passed, cancel the poll
results and tNow the wall clock of this run. -/
def scan_library_path (db : List Row) (pathOk : Bool) (root : String)
    (dirs : List (List RawFile)) (probe : String → Metadata) (hasJob : Bool)
    (cancel : ℕ → Bool) (tNow : ℤ) : ScanResult :=
  if !pathOk then
    { stats := ⟨0, 0, 0, 0, false⟩, db := db, dbBeforeReap := db,
      processed := [], probed := [] }
  else
    match countFiles hasJob cancel dirs 0 with
    | none =>
      { stats := ⟨0, 0, 0, 0, true⟩, db := db, dbBeforeReap := db,
        processed := [], probed := [] }
    | some (videoFiles, k1) =>
      let s := ingest hasJob cancel tNow probe videoFiles { db := db, k := k1 }
      if s.cancelled then
        { stats := ⟨s.newC, s.updC, 0, s.resC, true⟩, db := s.db,
          dbBeforeReap := s.db, processed := s.scanned, probed := s.probed }
      else
        { stats :=
            ⟨s.newC, s.updC, (s.db.filter (reapHits s.scanned root)).length,
              s.resC, false⟩
          db := s.db.map (reapRow s.scanned root tNow)
          dbBeforeReap := s.db
          processed := s.scanned
          probed := s.probed }

/-- Whether a path has an existing, not soft-deleted row in the database. -/
def hitNonDeleted (db : List Row) (p : String) : Bool :=
  match db.find? (fun r => r.file_path == p) with
  | some r => r.deleted_at == none
  | none => false

/-- Number of processed paths whose row already existed and was not
soft-deleted in the given database: the update tally of an ingest pass over
pairwise-distinct paths. -/
def ingestCount (db : List Row) (ps : List String) : ℕ :=
  (ps.filter (hitNonDeleted db)).length

/-- The find-first-by-path query of the scanner session. -/
def findPath (db : List Row) (p : String) : Option Row :=
  db.find? (fun r => r.file_path == p)

end Ferelix.Scan

namespace Ferelix.TC

/-! Embedding of the transcoding-job persistence touched by
server/app/services/transcoder.py.  The TranscodingJob row follows
server/app/models/transcoding.py; its start_time column is declared by the
server alembic revision 8cf3d900d225 (the ORM model file in the snapshot
predates that migration) and is written by start_hls_transcode and read back
by the progress monitor. -/

/-- TranscodingJobStatus from server/app/models/transcoding.py. -/
inductive TJStatus where
  | pending
  | running
  | completed
  | failed
  | cancelled
deriving DecidableEq, Repr

/-- TranscodingJob row restricted to the columns the cleanup sweep and the
progress monitor touch. -/
structure TJob where
  id : String
  status : TJStatus := .pending
  output_path : Option String := none
  progress_percent : Option ℚ := none
  transcoded_duration : Option ℚ := none
  current_fps : Option ℚ := none
  current_bitrate : Option ℤ := none
  start_time : Option ℚ := none
  last_accessed_at : ℤ := 0
deriving DecidableEq, Repr

/-- The selection filter of FFmpegTranscoder.cleanup_transcode_files: any
completed, failed, cancelled or pending job that has an output path. -/
def cleanupEligible (j : TJob) : Bool :=
  (j.status == .completed || j.status == .failed || j.status == .cancelled ||
    j.status == .pending) && j.output_path.isSome

/-- FFmpegTranscoder.cleanup_transcode_files: select the eligible jobs, then
remove each working directory and delete each record, counting them.  The
directory removal uses ignore_errors, so every selected job is deleted and
counted; the function returns the cleaned database and the count. -/
def cleanup_transcode_files (db : List TJob) : List TJob × ℕ :=
  let jobsToClean := db.filter cleanupEligible
  let final := jobsToClean.foldl (fun acc j => acc.eraseP (fun r => r.id == j.id)) db
  (final, jobsToClean.length)

/-- One stderr line of the encoder, abstracted by the results of the five
published regex searches of FFmpegTranscoder: whether the tokens frame= and
time= occur in the line, and the captured groups of each pattern when it
matches (hours, minutes and fractional seconds for time=). -/
structure FFmpegLine where
  hasFrameToken : Bool := false
  hasTimeToken : Bool := false
  frameMatch : Option ℕ := none
  fpsMatch : Option ℚ := none
  timeMatch : Option (ℕ × ℕ × ℚ) := none
  bitrateMatch : Option ℚ := none
deriving DecidableEq, Repr

/-- The progress dictionary built by FFmpegTranscoder.parse_ffmpeg_progress;
an unset key is none. -/
structure ProgressData where
  frame : Option ℕ := none
  current_fps : Option ℚ := none
  transcoded_duration : Option ℚ := none
  progress_percent : Option ℚ := none
  current_bitrate : Option ℤ := none
deriving DecidableEq, Repr

/-- FFmpegTranscoder.parse_ffmpeg_progress: guard on the frame= and time=
tokens, extract frame, fps, absolute time (converted to seconds) with the
capped percentage when the total duration is truthy and positive, and the
bitrate converted to bps; an empty dictionary is returned as None. -/
def parse_ffmpeg_progress (l : FFmpegLine) (total_duration : Option ℚ) :
    Option ProgressData :=
  if !(l.hasFrameToken && l.hasTimeToken) then none
  else
    let p0 : ProgressData := {}
    let p1 := match l.frameMatch with
      | some n => { p0 with frame := some n }
      | none => p0
    let p2 := match l.fpsMatch with
      | some q => { p1 with current_fps := some q }
      | none => p1
    let p3 := match l.timeMatch with
      | some hms =>
        let cur : ℚ := hms.1 * 3600 + hms.2.1 * 60 + hms.2.2
        let p := { p2 with transcoded_duration := some cur }
        match total_duration with
        | some d => if d ≠ 0 ∧ d > 0 then
            { p with progress_percent := some (min 100 (cur / d * 100)) }
          else p
        | none => p
      | none => p2
    let p4 := match l.bitrateMatch with
      | some b => { p3 with current_bitrate := some (pyTrunc (b * 1000)) }
      | none => p3
    if p4 = ({} : ProgressData) then none else some p4

/-- The conversion step of FFmpegTranscoder.monitor_progress: when the job
start_time was found, replace the absolute encoder time by the job-relative
duration clamped at zero.  The source reads float(value or 0.0), which equals
the value itself whenever the key is set. -/
def monitorConvert (job_start_time : Option ℚ) (p : ProgressData) : ProgressData :=
  match job_start_time, p.transcoded_duration with
  | some s, some td => { p with transcoded_duration := some (max 0 (td - s)) }
  | _, _ => p

/-- One progress iteration of FFmpegTranscoder.monitor_progress for a line
that parses: the progress data as persisted by update_job_progress. -/
def monitorStep (job_start_time : Option ℚ) (l : FFmpegLine)
    (total_duration : Option ℚ) : Option ProgressData :=
  (parse_ffmpeg_progress l total_duration).map (monitorConvert job_start_time)

/-- FFmpegTranscoder.update_job_progress: write all four progress columns
(an unset key becomes NULL) and refresh last_accessed_at. -/
def update_job_progress (j : TJob) (p : ProgressData) (now : ℤ) : TJob :=
  { j with
    progress_percent := p.progress_percent
    transcoded_duration := p.transcoded_duration
    current_fps := p.current_fps
    current_bitrate := p.current_bitrate
    last_accessed_at := now }

end Ferelix.TC

namespace Ferelix.Jobs

/-! Embedding of the job cancellation surface: request_job_cancellation and
get_job_state from server/app/services/jobs.py and the cancel_job endpoint of
app/routers/v1/dashboard.py.  The module-global _JOB_STATES dictionary is an
explicit association list threaded through the calls. -/

/-- JobState from server/app/services/jobs.py restricted to the fields the
cancellation path touches. -/
structure JobState where
  id : String
  status : String := "pending"
  cancellation_requested : Bool := false
  cancelled_at : Option ℤ := none
deriving DecidableEq, Repr

/-- The _JOB_STATES registry. -/
def Registry := List (String × JobState)

/-- Dictionary get on the registry. -/
def getState (reg : Registry) (job_id : String) : Option JobState :=
  (reg.find? (fun e => e.1 == job_id)).map (fun e => e.2)

/-- Dictionary entry update: replace the value under an existing key. -/
def setState (reg : Registry) (job_id : String) (st : JobState) : Registry :=
  match reg with
  | [] => []
  | e :: rest =>
    if e.1 == job_id then (e.1, st) :: rest else e :: setState rest job_id st

/-- request_job_cancellation from server/app/services/jobs.py: set the flag
and cancelled_at only when the state exists and is running; return whether
cancellation was requested. -/
def request_job_cancellation (reg : Registry) (job_id : String) (now : ℤ) :
    Registry × Bool :=
  match getState reg job_id with
  | some st =>
    if st.status == "running" then
      (setState reg job_id
        { st with cancellation_requested := true, cancelled_at := some now }, true)
    else (reg, false)
  | none => (reg, false)

/-- Outcome of the cancel_job endpoint: a JobTriggerResponse body or an
HTTPException with its status code (detail strings elided). -/
inductive CancelOutcome where
  | response (success : Bool)
  | httpError (statusCode : ℕ)
deriving DecidableEq, Repr

/-- cancel_job from app/routers/v1/dashboard.py: 404 when the job state is
unknown, 409 when its status is anything but running, otherwise request the
cancellation and report success (500 if the request unexpectedly fails). -/
def cancel_job (reg : Registry) (job_id : String) (now : ℤ) :
    CancelOutcome × Registry :=
  match getState reg job_id with
  | none => (.httpError 404, reg)
  | some st =>
    if st.status != "running" then (.httpError 409, reg)
    else
      let rb := request_job_cancellation reg job_id now
      if rb.2 then (.response true, rb.1) else (.httpError 500, rb.1)

end Ferelix.Jobs

namespace Ferelix.Stream

/-! Embedding of the Range-request handling of stream_video from
server/app/routers/v1/streaming.py.  The media row and the on-disk file are
given as the stored file_size and the byte list of the file; the media-id
lookup and the exists check that precede the range logic are elided (the
claims quantify over stored files that are present). -/

/-- Outcome of stream_video: an HTTPException, a streamed response with its
status code and the headers the claims mention, or an unhandled Python
exception (an int() ValueError or a missing dash IndexError) surfacing as an
internal server error. -/
inductive StreamOutcome where
  | httpError (statusCode : ℕ) (detail : String)
  | ok (statusCode : ℕ) (contentRange : Option String) (contentLength : String)
      (acceptRanges : String) (body : List ℕ)
  | internalError
deriving DecidableEq, Repr

/-- The chunked range reader: seek to start and read until end − start + 1
bytes are consumed or the file ends. -/
def rangeRead (data : List ℕ) (start endv : ℤ) : List ℕ :=
  (data.drop start.toNat).take (endv - start + 1).toNat

/-- Range parsing of stream_video: strip bytes=, split on the dash, parse the
start (default 0 when empty) and the end (default file_size − 1 when empty).
none models the uncaught IndexError or ValueError. -/
def parseRange (file_size : ℤ) (h : String) : Option (ℤ × ℤ) :=
  let rangeStr := pyReplace h "bytes=" ""
  let parts := pySplit rangeStr "-"
  let p0 := parts.headD ""
  match (if p0 ≠ "" then pyIntParse p0 else some 0) with
  | none => none
  | some start =>
    match parts[1]? with
    | none => none
    | some p1 =>
      match (if p1 ≠ "" then pyIntParse p1 else some (file_size - 1)) with
      | none => none
      | some endv => some (start, endv)

/-- stream_video from server/app/routers/v1/streaming.py, range logic only:
without a Range header the whole file is streamed with 200; with one, an
invalid range (start or end beyond the file, or inverted) is rejected with
416, and otherwise a 206 partial response carries Content-Range,
Content-Length and Accept-Ranges headers. -/
def stream_video (file_size : ℤ) (data : List ℕ) (range_header : Option String) :
    StreamOutcome :=
  match range_header with
  | none =>
    .ok 200 none (toString (file_size - 1 - 0 + 1)) "bytes"
      (rangeRead data 0 (file_size - 1))
  | some h =>
    match parseRange file_size h with
    | none => .internalError
    | some se =>
      if se.1 ≥ file_size || se.2 ≥ file_size || se.1 > se.2 then
        .httpError 416 "Invalid range"
      else
        .ok 206
          (some ("bytes " ++ toString se.1 ++ "-" ++ toString se.2 ++ "/" ++
            toString file_size))
          (toString (se.2 - se.1 + 1)) "bytes" (rangeRead data se.1 se.2)

end Ferelix.Stream

namespace Ferelix

/-! Concrete instances used by counterexamples and witnesses. -/

/-- A device profile with no direct-play and no codec profiles. -/
def dpEmpty : SB.DeviceProfileData := {}

/-- An mkv media file whose only track is h264 video. -/
def mediaMkvH264 : SB.MediaFileRec :=
  { id := 7
    file_extension := ".mkv"
    video_tracks := [{ codec := some "h264" }] }

/-- A video track with level 41 and width 1920. -/
def trackLevel41 : SB.MediaTrack :=
  { level := some "41"
    width := some 1920 }

/-- A required VideoLevel upper bound of 40. -/
def condLevelLE40 : SB.DeviceProfileCondition :=
  { Condition := "LessThanEqual"
    Property := "VideoLevel"
    Value := "40"
    IsRequired := true }

/-- A non-required Width membership condition. -/
def condWidthAny : SB.DeviceProfileCondition :=
  { Condition := "EqualsAny"
    Property := "Width"
    Value := "1280|1920"
    IsRequired := false }

/-- A video track whose colour columns are NULL, as the scanner stores when
ffprobe reports no colour metadata (the attributes exist with value None). -/
def trackNullColour : SB.MediaTrack :=
  { codec := some "h264"
    color_space := some none
    color_primaries := some none }

/-- A required Equals condition on the derived VideoRange property. -/
def condVideoRangeEq : SB.DeviceProfileCondition :=
  { Condition := "Equals"
    Property := "VideoRange"
    Value := "SDR"
    IsRequired := true }

/-- A MediaFile row that exists, is not soft-deleted, and owns one track. -/
def rowPlain : Scan.Row :=
  { file_path := "/m/a.mp4"
    file_name := "a.mp4"
    file_size := 5
    file_extension := ".mp4"
    created_at := 5
    updated_at := 5
    scanned_at := 5
    tracks := ["video-track-0"] }

/-- The walk entry for rowPlain. -/
def rawA : Scan.RawFile :=
  { path := "/m/a.mp4"
    name := "a.mp4"
    suffix := ".mp4"
    size := 5 }

/-- A second walk entry. -/
def rawB : Scan.RawFile :=
  { path := "/m/b.mp4"
    name := "b.mp4"
    suffix := ".mp4"
    size := 6 }

/-- A probe that finds no metadata. -/
def probeNone : String → Scan.Metadata := fun _ => {}

/-- A soft-deleted MediaFile row at the path of rawA. -/
def rowDeleted : Scan.Row :=
  { file_path := "/m/a.mp4"
    deleted_at := some 3 }

/-- A MediaFile row under the sibling root /m2 of the library root /m. -/
def rowSibling : Scan.Row :=
  { file_path := "/m2/x.mp4" }

/-- A completed transcoding job touched at time 1000. -/
def jobCompletedFresh : TC.TJob :=
  { id := "j1"
    status := .completed
    output_path := some "/transcode/j1"
    last_accessed_at := 1000 }

/-- A pending (non-terminal) transcoding job touched at time 1000. -/
def jobPendingFresh : TC.TJob :=
  { id := "j2"
    status := .pending
    output_path := some "/transcode/j2"
    last_accessed_at := 1000 }

/-- A running transcoding job. -/
def jobRunningOne : TC.TJob :=
  { id := "j3"
    status := .running
    output_path := some "/transcode/j3" }

/-- An encoder progress line at absolute time 20 s with frame 100. -/
def lineTime20 : TC.FFmpegLine :=
  { hasFrameToken := true
    hasTimeToken := true
    frameMatch := some 100
    timeMatch := some (0, 0, 20) }

/-- A job state whose status is cancelled. -/
def stCancelled : Jobs.JobState :=
  { id := "j"
    status := "cancelled" }

/-- A registry holding only the cancelled job. -/
def regCancelled : Jobs.Registry := [("j", stCancelled)]

/-- A running job state. -/
def stRunning : Jobs.JobState :=
  { id := "j"
    status := "running" }

/-- A registry holding only the running job. -/
def regRunning : Jobs.Registry := [("j", stRunning)]

end Ferelix

namespace Ferelix

/-! Theorems.  Each claim of the specification gets one theorem below;
supporting lemmas come first. -/

section SBLemmas

open SB

/-- Reading a colour attribute raises exactly on an attribute that is present
with a NULL value. -/
theorem lowerColourAttr_error (o : Option (Option String)) :
    lowerColourAttr o = .error () ↔ o = some none := by
  cases o with
  | none => simp [lowerColourAttr]
  | some s =>
    cases s with
    | none => simp [lowerColourAttr]
    | some str => simp [lowerColourAttr]

/-- GetVideoRange raises exactly when the track's color_space or
color_primaries column is NULL. -/
theorem getVideoRange_error (t : MediaTrack) :
    getVideoRange t = .error () ↔
      t.color_space = some none ∨ t.color_primaries = some none := by
  unfold getVideoRange
  cases hcs : lowerColourAttr t.color_space with
  | error e =>
    cases e
    simp [(lowerColourAttr_error _).mp hcs]
  | ok cs =>
    have h1 : t.color_space ≠ some none := by
      intro h
      rw [h] at hcs
      simp [lowerColourAttr] at hcs
    cases hcp : lowerColourAttr t.color_primaries with
    | error e =>
      cases e
      simp [(lowerColourAttr_error _).mp hcp]
    | ok cp =>
      have h2 : t.color_primaries ≠ some none := by
        intro h
        rw [h] at hcp
        simp [lowerColourAttr] at hcp
      simp [h1, h2]

set_option maxHeartbeats 1600000 in
/-- GetTrackPropertyValue raises exactly when the property is VideoRange and
a colour column of the track is NULL. -/
theorem getTrackPropertyValue_error (t : MediaTrack) (p : String) :
    getTrackPropertyValue t p = .error () ↔
      p = "VideoRange" ∧
        (t.color_space = some none ∨ t.color_primaries = some none) := by
  constructor
  · intro h
    unfold getTrackPropertyValue at h
    split_ifs at h with h1 h2 h3 h4 h5 h6 h7
    refine ⟨h7, (getVideoRange_error t).mp ?_⟩
    cases hv : getVideoRange t with
    | ok s => rw [hv] at h; exact absurd h (by simp)
    | error e => cases e; rfl
  · rintro ⟨hp, hcol⟩
    subst hp
    simp [getTrackPropertyValue, (getVideoRange_error t).mpr hcol]

/-- EvaluateCondition raises exactly the AttributeError of the property read,
which happens before its try block. -/
theorem evaluateCondition_error (t : MediaTrack) (c : DeviceProfileCondition) :
    evaluateCondition t c = .error () ↔
      c.Property = "VideoRange" ∧
        (t.color_space = some none ∨ t.color_primaries = some none) := by
  rw [← getTrackPropertyValue_error t c.Property]
  unfold evaluateCondition
  cases hg : getTrackPropertyValue t c.Property with
  | error e => cases e; simp
  | ok v =>
    cases v with
    | none => simp
    | some a => simp

end SBLemmas

section CleanupLemmas

open TC

/-- Folding the per-job erase over jobs that all miss a fixed head keeps the
head in place. -/
theorem foldl_eraseP_cons (x : TJob) (js : List TJob) (acc : List TJob)
    (hne : ∀ j ∈ js, (x.id == j.id) = false) :
    js.foldl (fun a j => a.eraseP (fun r => r.id == j.id)) (x :: acc) =
      x :: js.foldl (fun a j => a.eraseP (fun r => r.id == j.id)) acc := by
  induction js generalizing acc with
  | nil => rfl
  | cons j rest ih =>
    simp only [List.foldl_cons]
    rw [List.eraseP_cons_of_neg (by simp [hne j (List.mem_cons_self j rest)])]
    exact ih _ (fun g hg => hne g (List.mem_cons_of_mem j hg))

/-- Erasing the selected jobs of a list from that list, one by one, amounts to
filtering them out, provided job ids are pairwise distinct. -/
theorem cleanup_fold (l : List TJob) (sel : TJob → Bool)
    (hnodup : (l.map TJob.id).Nodup) :
    (l.filter sel).foldl (fun a j => a.eraseP (fun r => r.id == j.id)) l =
      l.filter (fun j => !sel j) := by
  induction l with
  | nil => rfl
  | cons x xs ih =>
    have hx : ∀ j ∈ xs, (x.id == j.id) = false := by
      intro j hj
      have : x.id ∉ xs.map TJob.id := (List.nodup_cons.mp hnodup).1
      simp only [beq_eq_false_iff_ne, ne_eq]
      intro hEq
      exact this (hEq ▸ List.mem_map_of_mem TJob.id hj)
    have hnd : (xs.map TJob.id).Nodup := (List.nodup_cons.mp hnodup).2
    by_cases hsel : sel x
    · rw [List.filter_cons_of_pos hsel, List.foldl_cons,
        List.eraseP_cons_of_pos (by simp)]
      rw [List.filter_cons_of_neg (by simp [hsel])]
      exact ih hnd
    · rw [List.filter_cons_of_neg (by simp [hsel]),
        List.filter_cons_of_pos (by simp [hsel])]
      rw [foldl_eraseP_cons x (xs.filter sel) xs
        (fun j hj => hx j (List.mem_of_mem_filter hj))]
      rw [ih hnd]

end CleanupLemmas

section JobsLemmas

open Jobs

/-- Updating an existing key makes getState return the new state. -/
theorem getState_setState (reg : Registry) (job_id : String) (st0 st : JobState)
    (h : getState reg job_id = some st0) :
    getState (setState reg job_id st) job_id = some st := by
  induction reg with
  | nil => simp [getState] at h
  | cons e rest ih =>
    cases he : (e.1 == job_id) with
    | true => simp [setState, he, getState, List.find?_cons]
    | false =>
      simp only [setState, he, Bool.false_eq_true, if_false]
      simp only [getState, List.find?_cons, he] at h ⊢
      exact ih h

end JobsLemmas

section ScanLemmas

open Scan

/-- The path of a reaped row is the path of the row. -/
theorem reapRow_file_path (sc : List String) (root : String) (tNow : ℤ) (r : Row) :
    (reapRow sc root tNow r).file_path = r.file_path := by
  unfold reapRow
  split <;> rfl

/-- Reaping commutes with the path lookup. -/
theorem findPath_reap (db : List Row) (sc : List String) (root : String)
    (tNow : ℤ) (p : String) :
    findPath (db.map (reapRow sc root tNow)) p =
      (findPath db p).map (reapRow sc root tNow) := by
  unfold findPath
  rw [List.find?_map]
  have hfun : ((fun r => r.file_path == p) ∘ reapRow sc root tNow) =
      fun r : Row => r.file_path == p := by
    funext r
    simp [Function.comp, reapRow_file_path]
  rw [hfun]

/-- An observed row is not reaped. -/
theorem reapRow_of_scanned (sc : List String) (root : String) (tNow : ℤ)
    (r : Row) (h : r.file_path ∈ sc) : reapRow sc root tNow r = r := by
  unfold reapRow reapHits
  rw [if_neg]
  simp [h]

/-- Replacing the row at a path makes the lookup of that path return the new
row. -/
theorem findPath_replaceFirst_same (db : List Row) (p : String) (r r2 : Row)
    (hr2 : (r2.file_path == p) = true) (h : findPath db p = some r) :
    findPath (replaceFirst db p r2) p = some r2 := by
  induction db with
  | nil => simp [findPath] at h
  | cons x rest ih =>
    cases hx : (x.file_path == p) with
    | true => simp [replaceFirst, hx, findPath, List.find?_cons, hr2]
    | false =>
      simp only [replaceFirst, hx, Bool.false_eq_true, if_false]
      simp only [findPath, List.find?_cons, hx] at h ⊢
      exact ih h

/-- Replacing the row at another path leaves a lookup unchanged. -/
theorem findPath_replaceFirst_ne (db : List Row) (p q : String) (r2 : Row)
    (hq : (r2.file_path == q) = false) (hpq : p ≠ q) :
    findPath (replaceFirst db p r2) q = findPath db q := by
  induction db with
  | nil => rfl
  | cons x rest ih =>
    cases hx : (x.file_path == p) with
    | true =>
      have hxq : (x.file_path == q) = false := by
        simp only [beq_iff_eq] at hx
        simp only [beq_eq_false_iff_ne, ne_eq, hx]
        exact hpq
      simp [replaceFirst, hx, findPath, List.find?_cons, hxq, hq]
    | false =>
      simp only [replaceFirst, hx, Bool.false_eq_true, if_false]
      simp only [findPath, List.find?_cons] at ih ⊢
      cases hxq : (x.file_path == q) with
      | true => simp [hxq]
      | false => simpa [hxq] using ih

/-- Membership in a replaced list comes from the old list or is the new row. -/
theorem mem_replaceFirst (db : List Row) (p : String) (r2 x : Row)
    (h : x ∈ replaceFirst db p r2) : x ∈ db ∨ x = r2 := by
  induction db with
  | nil => simp [replaceFirst] at h
  | cons y rest ih =>
    by_cases hy : (y.file_path == p) = true
    · simp only [replaceFirst, hy, if_true] at h
      rcases List.mem_cons.mp h with h1 | h1
      · right; exact h1
      · left; exact List.mem_cons_of_mem y h1
    · simp only [replaceFirst, hy, if_false] at h
      rcases List.mem_cons.mp h with h1 | h1
      · left; exact h1 ▸ List.mem_cons_self y rest
      · rcases ih h1 with h2 | h2
        · left; exact List.mem_cons_of_mem y h2
        · right; exact h2

/-- A row whose path differs from the replaced one stays a member. -/
theorem mem_replaceFirst_of_ne (db : List Row) (p : String) (r2 x : Row)
    (hx : x ∈ db) (hne : (x.file_path == p) = false) :
    x ∈ replaceFirst db p r2 := by
  induction db with
  | nil => simp at hx
  | cons y rest ih =>
    rcases List.mem_cons.mp hx with h1 | h1
    · subst h1
      simp only [replaceFirst, hne, Bool.false_eq_true, if_false]
      exact List.mem_cons_self x (replaceFirst rest p r2)
    · by_cases hy : (y.file_path == p) = true
      · simp only [replaceFirst, hy, if_true]
        exact List.mem_cons_of_mem r2 h1
      · simp only [replaceFirst, hy, if_false]
        exact List.mem_cons_of_mem y (ih h1)

/-- Under pairwise-distinct paths, the find-first query at a member row's path
returns that row. -/
theorem findPath_of_mem_nodup (db : List Row) (r : Row)
    (hnd : (db.map Row.file_path).Nodup) (hr : r ∈ db) :
    findPath db r.file_path = some r := by
  induction db with
  | nil => simp at hr
  | cons x rest ih =>
    rcases List.mem_cons.mp hr with h1 | h1
    · subst h1
      simp [findPath, List.find?_cons]
    · have hx : (x.file_path == r.file_path) = false := by
        have : x.file_path ∉ rest.map Row.file_path := (List.nodup_cons.mp hnd).1
        simp only [beq_eq_false_iff_ne, ne_eq]
        intro hEq
        exact this (hEq ▸ List.mem_map_of_mem Row.file_path h1)
      simp only [findPath, List.find?_cons, hx]
      exact ih (List.nodup_cons.mp hnd).2 h1

/-- Processing a file records exactly its path as scanned. -/
theorem processFile_scanned (tNow : ℤ) (probe : String → Metadata) (f : RawFile)
    (s : IngestState) :
    (processFile tNow probe f s).scanned = s.scanned ++ [f.path] := by
  simp only [processFile]
  split
  · split <;> rfl
  · rfl

/-- Processing a file leaves the cancellation flag alone. -/
theorem processFile_cancelled (tNow : ℤ) (probe : String → Metadata) (f : RawFile)
    (s : IngestState) :
    (processFile tNow probe f s).cancelled = s.cancelled := by
  simp only [processFile]
  split
  · split <;> rfl
  · rfl

/-- Processing a file never decreases the update counter. -/
theorem processFile_updC (tNow : ℤ) (probe : String → Metadata) (f : RawFile)
    (s : IngestState) :
    (processFile tNow probe f s).updC =
      s.updC + (if hitNonDeleted s.db f.path then 1 else 0) := by
  cases hfind : s.db.find? (fun r => r.file_path == f.path) with
  | some r =>
    by_cases hdel : r.deleted_at = none
    · simp [processFile, hitNonDeleted, hfind, hdel]
    · simp [processFile, hitNonDeleted, hfind, hdel]
  | none => simp [processFile, hitNonDeleted, hfind]

/-- Processing one file leaves the lookup and the probed set of any other
path unchanged. -/
theorem processFile_frame (tNow : ℤ) (probe : String → Metadata) (f : RawFile)
    (s : IngestState) (q : String) (hq : f.path ≠ q) :
    findPath (processFile tNow probe f s).db q = findPath s.db q ∧
    (q ∈ (processFile tNow probe f s).probed ↔ q ∈ s.probed) := by
  simp only [processFile]
  cases hfind : s.db.find? (fun r => r.file_path == f.path) with
  | some r =>
    have hrp : (r.file_path == f.path) = true := by
      have := List.find?_some hfind
      simpa using this
    have hrq : (r.file_path == q) = false := by
      simp only [beq_iff_eq] at hrp
      simp only [beq_eq_false_iff_ne, ne_eq, hrp]
      exact hq
    simp only [hfind]
    constructor
    · split
      · exact findPath_replaceFirst_ne s.db f.path q
          { r with deleted_at := none, scanned_at := tNow } hrq hq
      · exact findPath_replaceFirst_ne s.db f.path q
          { r with scanned_at := tNow } hrq hq
    · split <;> simp
  | none =>
    simp only [hfind]
    constructor
    · unfold findPath
      rw [List.find?_append]
      have hfq : (f.path == q) = false := by
        simpa [beq_eq_false_iff_ne, ne_eq] using hq
      have : List.find? (fun r => r.file_path == q) [newRowOf f (probe f.path) tNow] =
          none := by
        simp [newRowOf, List.find?_cons, hfq]
      cases hcur : List.find? (fun r => r.file_path == q) s.db <;> simp [this, hcur]
    · simp only [List.mem_append, List.mem_singleton]
      constructor
      · rintro (h1 | h1)
        · exact h1
        · exact absurd h1.symm hq
      · exact fun h1 => Or.inl h1

/-- The hit at the processed file's own path: the existing non-deleted row is
replaced by a copy with a fresh scanned_at, the update counter grows, and the
path is not probed. -/
theorem processFile_hit (tNow : ℤ) (probe : String → Metadata) (f : RawFile)
    (s : IngestState) (r : Row)
    (hfind : s.db.find? (fun x => x.file_path == f.path) = some r)
    (hnd : r.deleted_at = none) :
    (processFile tNow probe f s).db =
      replaceFirst s.db f.path { r with scanned_at := tNow } ∧
    (processFile tNow probe f s).probed = s.probed ∧
    (processFile tNow probe f s).updC = s.updC + 1 := by
  simp only [processFile]
  simp [hfind, hnd]

/-- A member row whose path is not the processed one stays a member. -/
theorem processFile_member_ne (tNow : ℤ) (probe : String → Metadata) (f : RawFile)
    (s : IngestState) (x : Row) (hx : x ∈ s.db)
    (hne : (x.file_path == f.path) = false) :
    x ∈ (processFile tNow probe f s).db := by
  simp only [processFile]
  cases hfind : s.db.find? (fun r => r.file_path == f.path) with
  | some r =>
    simp only [hfind]
    split
    · exact mem_replaceFirst_of_ne s.db f.path _ x hx hne
    · exact mem_replaceFirst_of_ne s.db f.path _ x hx hne
  | none =>
    simp only [hfind]
    exact List.mem_append_left _ hx

/-- A row of the processed database that is still soft-deleted was already a
row of the database before the step (ingest only clears deleted_at and
inserts fresh rows). -/
theorem processFile_nonnull_mem (tNow : ℤ) (probe : String → Metadata)
    (f : RawFile) (s : IngestState) (x : Row)
    (hx : x ∈ (processFile tNow probe f s).db) (hdel : x.deleted_at ≠ none) :
    x ∈ s.db := by
  simp only [processFile] at hx
  revert hx
  cases hfind : s.db.find? (fun r => r.file_path == f.path) with
  | some r =>
    simp only [hfind]
    intro hx
    split at hx
    · rcases mem_replaceFirst s.db f.path _ x hx with h1 | h1
      · exact h1
      · exact absurd (by simp [h1]) hdel
    · next hnd =>
      have hdn : r.deleted_at = none := not_not.mp hnd
      rcases mem_replaceFirst s.db f.path _ x hx with h1 | h1
      · exact h1
      · exact absurd (by simp [h1, hdn]) hdel
  | none =>
    simp only [hfind]
    intro hx
    rcases List.mem_append.mp hx with h1 | h1
    · exact h1
    · simp only [List.mem_singleton] at h1
      exact absurd (by simp [h1, newRowOf]) hdel

/-- Ingest of files that all avoid a path leaves its lookup, probed status
and scanned status unchanged. -/
theorem ingest_frame (hasJob : Bool) (cancel : ℕ → Bool) (tNow : ℤ)
    (probe : String → Metadata) (files : List RawFile) (s : IngestState)
    (q : String) (hq : ∀ f ∈ files, f.path ≠ q) :
    findPath (ingest hasJob cancel tNow probe files s).db q = findPath s.db q ∧
    (q ∈ (ingest hasJob cancel tNow probe files s).probed ↔ q ∈ s.probed) ∧
    (q ∈ (ingest hasJob cancel tNow probe files s).scanned ↔ q ∈ s.scanned) := by
  induction files generalizing s with
  | nil => exact ⟨rfl, Iff.rfl, Iff.rfl⟩
  | cons f rest ih =>
    simp only [ingest]
    split
    · exact ⟨rfl, Iff.rfl, Iff.rfl⟩
    · have hfq : f.path ≠ q := hq f (List.mem_cons_self f rest)
      have hrest : ∀ g ∈ rest, g.path ≠ q :=
        fun g hg => hq g (List.mem_cons_of_mem f hg)
      have hihx := ih (processFile tNow probe f { s with k := s.k + 1 }) hrest
      have hpf := processFile_frame tNow probe f { s with k := s.k + 1 } q hfq
      have hsc := processFile_scanned tNow probe f { s with k := s.k + 1 }
      refine ⟨hihx.1.trans hpf.1, hihx.2.1.trans hpf.2, ?_⟩
      refine hihx.2.2.trans ?_
      rw [hsc]
      simp only [List.mem_append, List.mem_singleton]
      constructor
      · rintro (h1 | h1)
        · exact h1
        · exact absurd h1.symm hfq
      · exact fun h1 => Or.inl h1

/-- The update counter never decreases along an ingest. -/
theorem ingest_updC_mono (hasJob : Bool) (cancel : ℕ → Bool) (tNow : ℤ)
    (probe : String → Metadata) (files : List RawFile) (s : IngestState) :
    s.updC ≤ (ingest hasJob cancel tNow probe files s).updC := by
  induction files generalizing s with
  | nil => exact le_refl _
  | cons f rest ih =>
    simp only [ingest]
    split
    · exact le_refl _
    · refine le_trans ?_ (ih (processFile tNow probe f { s with k := s.k + 1 }))
      rw [processFile_updC]
      exact Nat.le_add_right _ _

/-- A path processed by the ingest whose row existed and was not soft-deleted
ends with the same row except a fresh scanned_at, is never probed, and
contributes to the update counter. -/
theorem ingest_hit (hasJob : Bool) (cancel : ℕ → Bool) (tNow : ℤ)
    (probe : String → Metadata) (files : List RawFile) (s : IngestState)
    (p : String) (r : Row)
    (hnodupF : (files.map RawFile.path).Nodup)
    (hfind : findPath s.db p = some r) (hnd : r.deleted_at = none)
    (hnew : p ∉ s.scanned)
    (hmem : p ∈ (ingest hasJob cancel tNow probe files s).scanned) :
    findPath (ingest hasJob cancel tNow probe files s).db p =
      some { r with scanned_at := tNow } ∧
    (p ∈ (ingest hasJob cancel tNow probe files s).probed ↔ p ∈ s.probed) ∧
    s.updC + 1 ≤ (ingest hasJob cancel tNow probe files s).updC := by
  induction files generalizing s with
  | nil => exact absurd hmem hnew
  | cons f rest ih =>
    simp only [ingest] at hmem ⊢
    split at hmem
    · exact absurd hmem hnew
    · next hcancel =>
      rw [if_neg hcancel]
      have hrestN : (rest.map RawFile.path).Nodup := (List.nodup_cons.mp hnodupF).2
      by_cases hfp : f.path = p
      · subst hfp
        have hrp : (r.file_path == f.path) = true := by
          have := List.find?_some hfind
          simpa using this
        obtain ⟨hdb, hprobed, hupd⟩ :=
          processFile_hit tNow probe f { s with k := s.k + 1 } r hfind hnd
        have hrest : ∀ g ∈ rest, g.path ≠ f.path := by
          intro g hg hEq
          have : f.path ∉ rest.map RawFile.path := by
            simpa using (List.nodup_cons.mp hnodupF).1
          exact this (hEq ▸ List.mem_map_of_mem RawFile.path hg)
        have hframe := ingest_frame hasJob cancel tNow probe rest
          (processFile tNow probe f { s with k := s.k + 1 }) f.path hrest
        refine ⟨?_, ?_, ?_⟩
        · rw [hframe.1, hdb]
          exact findPath_replaceFirst_same s.db f.path r _ (by simpa using hrp) hfind
        · rw [hframe.2.1, hprobed]
        · have := ingest_updC_mono hasJob cancel tNow probe rest
            (processFile tNow probe f { s with k := s.k + 1 })
          rw [hupd] at this
          exact this
      · have hpf := processFile_frame tNow probe f { s with k := s.k + 1 } p hfp
        have hsc := processFile_scanned tNow probe f { s with k := s.k + 1 }
        have hfind2 : findPath (processFile tNow probe f { s with k := s.k + 1 }).db p =
            some r := by rw [hpf.1]; exact hfind
        have hnew2 : p ∉ (processFile tNow probe f { s with k := s.k + 1 }).scanned := by
          rw [hsc]
          simp only [List.mem_append, List.mem_singleton]
          rintro (h1 | h1)
          · exact hnew h1
          · exact hfp h1.symm
        obtain ⟨ih1, ih2, ih3⟩ := ih (processFile tNow probe f { s with k := s.k + 1 })
          hrestN hfind2 hnew2 hmem
        refine ⟨ih1, ih2.trans hpf.2, ?_⟩
        calc s.updC + 1 ≤ (processFile tNow probe f { s with k := s.k + 1 }).updC + 1 := by
              rw [processFile_updC]
              have e1 : ({ s with k := s.k + 1 } : IngestState).updC = s.updC := rfl
              rw [e1]
              omega
          _ ≤ _ := ih3

/-- An uncancelled ingest processes every file in order. -/
theorem ingest_scanned_of_not_cancelled (hasJob : Bool) (cancel : ℕ → Bool)
    (tNow : ℤ) (probe : String → Metadata) (files : List RawFile)
    (s : IngestState)
    (h : (ingest hasJob cancel tNow probe files s).cancelled = false) :
    (ingest hasJob cancel tNow probe files s).scanned =
      s.scanned ++ files.map RawFile.path := by
  induction files generalizing s with
  | nil => simp [ingest]
  | cons f rest ih =>
    simp only [ingest] at h ⊢
    split at h
    · simp at h
    · next hcancel =>
      rw [if_neg hcancel]
      rw [ih _ h, processFile_scanned]
      simp

/-- A row of the post-ingest database that is soft-deleted was already a row
of the database before the pass: the ingest never sets deleted_at. -/
theorem ingest_nonnull_mem (hasJob : Bool) (cancel : ℕ → Bool) (tNow : ℤ)
    (probe : String → Metadata) (files : List RawFile) (s : IngestState)
    (x : Row) (hx : x ∈ (ingest hasJob cancel tNow probe files s).db)
    (hdel : x.deleted_at ≠ none) : x ∈ s.db := by
  induction files generalizing s with
  | nil => exact hx
  | cons f rest ih =>
    simp only [ingest] at hx
    split at hx
    · exact hx
    · exact processFile_nonnull_mem tNow probe f { s with k := s.k + 1 } x
        (ih _ hx) hdel

/-- A member row none of whose files share its path stays a member through
the ingest. -/
theorem ingest_member_frame (hasJob : Bool) (cancel : ℕ → Bool) (tNow : ℤ)
    (probe : String → Metadata) (files : List RawFile) (s : IngestState)
    (x : Row) (hx : x ∈ s.db) (hne : ∀ f ∈ files, f.path ≠ x.file_path) :
    x ∈ (ingest hasJob cancel tNow probe files s).db := by
  induction files generalizing s with
  | nil => exact hx
  | cons f rest ih =>
    simp only [ingest]
    split
    · exact hx
    · refine ih (processFile tNow probe f { s with k := s.k + 1 })
        (processFile_member_ne tNow probe f { s with k := s.k + 1 } x hx ?_)
        (fun g hg => hne g (List.mem_cons_of_mem f hg))
      have := hne f (List.mem_cons_self f rest)
      simp only [beq_eq_false_iff_ne, ne_eq]
      exact fun hEq => this hEq.symm

/-- The update tally of an ingest over pairwise-distinct fresh paths equals
the number of processed paths that had an existing non-deleted row. -/
theorem ingest_count (hasJob : Bool) (cancel : ℕ → Bool) (tNow : ℤ)
    (probe : String → Metadata) (files : List RawFile) (s : IngestState)
    (hnodupF : (files.map RawFile.path).Nodup)
    (hdisj : ∀ f ∈ files, f.path ∉ s.scanned) :
    ∃ t, (ingest hasJob cancel tNow probe files s).scanned = s.scanned ++ t ∧
      (∀ x ∈ t, x ∈ files.map RawFile.path) ∧
      (ingest hasJob cancel tNow probe files s).updC =
        s.updC + ingestCount s.db t := by
  induction files generalizing s with
  | nil => exact ⟨[], by simp [ingest], by simp, by simp [ingest, ingestCount]⟩
  | cons f rest ih =>
    simp only [ingest]
    split
    · exact ⟨[], by simp, by simp, by simp [ingestCount]⟩
    · have hrestN : (rest.map RawFile.path).Nodup := (List.nodup_cons.mp hnodupF).2
      have hfnotrest : f.path ∉ rest.map RawFile.path := by
        simpa using (List.nodup_cons.mp hnodupF).1
      have hdisj2 : ∀ g ∈ rest, g.path ∉
          (processFile tNow probe f { s with k := s.k + 1 }).scanned := by
        intro g hg
        rw [processFile_scanned]
        simp only [List.mem_append, List.mem_singleton]
        rintro (h1 | h1)
        · exact hdisj g (List.mem_cons_of_mem f hg) h1
        · exact hfnotrest (h1 ▸ List.mem_map_of_mem RawFile.path hg)
      obtain ⟨t, ht1, ht2, ht3⟩ :=
        ih (processFile tNow probe f { s with k := s.k + 1 }) hrestN hdisj2
      refine ⟨f.path :: t, ?_, ?_, ?_⟩
      · rw [ht1, processFile_scanned]
        simp
      · intro x hxm
        rcases List.mem_cons.mp hxm with h1 | h1
        · simp [h1]
        · exact List.mem_cons_of_mem _ (ht2 x h1)
      · rw [ht3, processFile_updC]
        have hcongr : ingestCount (processFile tNow probe f { s with k := s.k + 1 }).db t =
            ingestCount s.db t := by
          unfold ingestCount
          congr 1
          apply List.filter_congr
          intro x hxm
          have hxne : f.path ≠ x :=
            fun hEq => hfnotrest (hEq ▸ ht2 x hxm)
          have := (processFile_frame tNow probe f { s with k := s.k + 1 } x hxne).1
          unfold hitNonDeleted
          unfold findPath at this
          rw [this]
        rw [hcongr]
        have hcount : ingestCount s.db (f.path :: t) =
            (if hitNonDeleted s.db f.path then 1 else 0) + ingestCount s.db t := by
          unfold ingestCount
          rw [List.filter_cons]
          split <;> simp [Nat.add_comm]
        rw [hcount]
        have e1 : ({ s with k := s.k + 1 } : IngestState).updC = s.updC := rfl
        have e2 : ({ s with k := s.k + 1 } : IngestState).db = s.db := rfl
        rw [e1, e2]
        omega

/-- The first pass collects exactly the video files of the walk whenever it
completes. -/
theorem countFiles_eq (hasJob : Bool) (cancel : ℕ → Bool)
    (dirs : List (List RawFile)) (k k2 : ℕ) (vfs : List RawFile)
    (h : countFiles hasJob cancel dirs k = some (vfs, k2)) :
    vfs = allVideoFiles dirs := by
  induction dirs generalizing k vfs k2 with
  | nil =>
    simp only [countFiles, Option.some.injEq, Prod.mk.injEq] at h
    simp [allVideoFiles, ← h.1]
  | cons d rest ih =>
    simp only [countFiles] at h
    split at h
    · exact absurd h (by simp)
    · revert h
      cases hrec : countFiles hasJob cancel rest (k + 1) with
      | none => intro h; exact absurd h (by simp)
      | some fsk =>
        obtain ⟨fs2, k3⟩ := fsk
        intro h
        simp only [Option.some.injEq, Prod.mk.injEq] at h
        have hfs := ih _ _ _ hrec
        simp only [allVideoFiles, List.flatMap_cons] at hfs ⊢
        rw [← h.1, hfs]

/-- Unfolding of one scan run over an existing directory. -/
theorem scan_unfold (db : List Row) (root : String) (dirs : List (List RawFile))
    (probe : String → Metadata) (hasJob : Bool) (cancel : ℕ → Bool) (tNow : ℤ) :
    scan_library_path db true root dirs probe hasJob cancel tNow =
      match countFiles hasJob cancel dirs 0 with
      | none =>
        { stats := ⟨0, 0, 0, 0, true⟩, db := db, dbBeforeReap := db,
          processed := [], probed := [] }
      | some (vfs, k1) =>
        let s := ingest hasJob cancel tNow probe vfs { db := db, k := k1 }
        if s.cancelled then
          { stats := ⟨s.newC, s.updC, 0, s.resC, true⟩, db := s.db,
            dbBeforeReap := s.db, processed := s.scanned, probed := s.probed }
        else
          { stats := ⟨s.newC, s.updC,
              (s.db.filter (reapHits s.scanned root)).length, s.resC, false⟩
            db := s.db.map (reapRow s.scanned root tNow)
            dbBeforeReap := s.db
            processed := s.scanned
            probed := s.probed } := rfl

end ScanLemmas

/-- C1, counterexample.  A scan pass that observes a path with an existing,
non-soft-deleted MediaFile row bumps only scanned_at and counts an update:
the file is not probed (probed stays empty), the track records are untouched
and updated_at keeps its old value 5 instead of the scan time 10. -/
theorem claim_C1_counterexample :
    (Scan.scan_library_path [rowPlain] true "/m" [[rawA]] probeNone false
      (fun _ => false) 10).processed = ["/m/a.mp4"] ∧
    (Scan.scan_library_path [rowPlain] true "/m" [[rawA]] probeNone false
      (fun _ => false) 10).probed = [] ∧
    (Scan.scan_library_path [rowPlain] true "/m" [[rawA]] probeNone false
      (fun _ => false) 10).stats = ⟨0, 1, 0, 0, false⟩ ∧
    (Scan.scan_library_path [rowPlain] true "/m" [[rawA]] probeNone false
      (fun _ => false) 10).db = [{ rowPlain with scanned_at := 10 }] ∧
    rowPlain.updated_at = 5 ∧ rowPlain.tracks = ["video-track-0"] := by
  refine ⟨by decide, by decide, by decide, by decide, rfl, rfl⟩

/-- C1, amended.  For every path observed by a scan pass that already has a
MediaFile row which is not soft-deleted, scan_library_path bumps scanned_at
to the scan time and counts it as an update (the updated tally is exactly the
number of observed paths with an existing non-deleted row), but it does not
re-probe the file, does not touch its track records and leaves updated_at
unchanged. -/
theorem claim_C1 (db : List Scan.Row) (root : String)
    (dirs : List (List Scan.RawFile)) (probe : String → Scan.Metadata)
    (hasJob : Bool) (cancel : ℕ → Bool) (tNow : ℤ) (r : Scan.Row)
    (hdb : (db.map Scan.Row.file_path).Nodup)
    (hfiles : ((Scan.allVideoFiles dirs).map Scan.RawFile.path).Nodup)
    (hr : r ∈ db) (hnd : r.deleted_at = none)
    (hobs : r.file_path ∈
      (Scan.scan_library_path db true root dirs probe hasJob cancel tNow).processed) :
    Scan.findPath
        (Scan.scan_library_path db true root dirs probe hasJob cancel tNow).db
        r.file_path = some { r with scanned_at := tNow } ∧
    r.file_path ∉
      (Scan.scan_library_path db true root dirs probe hasJob cancel tNow).probed ∧
    (Scan.scan_library_path db true root dirs probe hasJob cancel tNow).stats.updated =
      Scan.ingestCount db
        (Scan.scan_library_path db true root dirs probe hasJob cancel tNow).processed := by
  have hfind : Scan.findPath db r.file_path = some r := findPath_of_mem_nodup db r hdb hr
  cases hcf : Scan.countFiles hasJob cancel dirs 0 with
  | none =>
    rw [scan_unfold, hcf] at hobs
    simp at hobs
  | some pr =>
    obtain ⟨vfs, k1⟩ := pr
    have hnodupF : (vfs.map Scan.RawFile.path).Nodup := by
      rw [countFiles_eq hasJob cancel dirs 0 k1 vfs hcf]
      exact hfiles
    simp only [scan_unfold, hcf] at hobs ⊢
    obtain ⟨hmain, hprob, hupd⟩ :=
      ingest_hit hasJob cancel tNow probe vfs { db := db, k := k1 } r.file_path r
        hnodupF hfind hnd (by simp)
        (by
          revert hobs
          split <;> exact fun hobs => hobs)
    obtain ⟨t, ht1, ht2, ht3⟩ :=
      ingest_count hasJob cancel tNow probe vfs { db := db, k := k1 } hnodupF
        (by simp)
    have hteq : (Scan.ingest hasJob cancel tNow probe vfs
        { db := db, k := k1 }).scanned = t := by
      rw [ht1]; rfl
    split
    · refine ⟨hmain, ?_, ?_⟩
      · intro hmem
        exact absurd (hprob.mp hmem) (by simp)
      · rw [hteq, ht3]
        exact Nat.zero_add _
    · constructor
      · rw [findPath_reap, hmain, Option.map_some']
        congr 1
        apply reapRow_of_scanned
        suffices h2 : r.file_path ∈ (Scan.ingest hasJob cancel tNow probe vfs
            { db := db, k := k1 }).scanned by
          simpa using h2
        revert hobs
        split <;> exact fun hobs => hobs
      · refine ⟨?_, ?_⟩
        · intro hmem
          exact absurd (hprob.mp hmem) (by simp)
        · rw [hteq, ht3]
          exact Nat.zero_add _

/-- C1, witness. -/
theorem claim_C1_witness :
    Scan.findPath
        (Scan.scan_library_path [rowPlain] true "/m" [[rawA]] probeNone false
          (fun _ => false) 10).db "/m/a.mp4" =
      some { rowPlain with scanned_at := 10 } ∧
    "/m/a.mp4" ∉
      (Scan.scan_library_path [rowPlain] true "/m" [[rawA]] probeNone false
        (fun _ => false) 10).probed ∧
    (Scan.scan_library_path [rowPlain] true "/m" [[rawA]] probeNone false
      (fun _ => false) 10).stats.updated =
      Scan.ingestCount [rowPlain]
        (Scan.scan_library_path [rowPlain] true "/m" [[rawA]] probeNone false
          (fun _ => false) 10).processed := by
  have H := claim_C1 [rowPlain] "/m" [[rawA]] probeNone false (fun _ => false) 10
    rowPlain (by decide) (by decide) (by decide) rfl (by decide)
  exact H

/-- C2, counterexample.  A run in which cancellation is observed during the
ingest can still change a soft-delete timestamp: a file restored before the
cancellation point has its deleted_at cleared from some 3 to none, and the
change is committed. -/
theorem claim_C2_counterexample :
    (Scan.scan_library_path [rowDeleted] true "/m" [[rawA, rawB]] probeNone true
      (fun k => decide (k ≥ 2)) 10).stats.cancelled = true ∧
    Scan.findPath
        (Scan.scan_library_path [rowDeleted] true "/m" [[rawA, rawB]] probeNone true
          (fun k => decide (k ≥ 2)) 10).db "/m/a.mp4" =
      some { rowDeleted with deleted_at := none, scanned_at := 10 } ∧
    rowDeleted.deleted_at = some 3 := by
  refine ⟨by decide, by decide, rfl⟩

/-- C2, amended.  On every run in which cooperative cancellation is observed,
no MediaFile row's deleted_at is newly set: every row that is soft-deleted
after the run was already soft-deleted, unchanged, before it (the reap pass
does not execute; restores before the cancellation point may still clear
deleted_at).  Cancellation observed during the enumeration pass returns
{new 0, updated 0, deleted 0, restored 0, cancelled true} with the database
untouched. -/
theorem claim_C2 (db : List Scan.Row) (pathOk : Bool) (root : String)
    (dirs : List (List Scan.RawFile)) (probe : String → Scan.Metadata)
    (hasJob : Bool) (cancel : ℕ → Bool) (tNow : ℤ) :
    ((Scan.scan_library_path db pathOk root dirs probe hasJob cancel
        tNow).stats.cancelled = true →
      ∀ r2 ∈ (Scan.scan_library_path db pathOk root dirs probe hasJob cancel
        tNow).db, r2.deleted_at ≠ none → r2 ∈ db) ∧
    (Scan.countFiles hasJob cancel dirs 0 = none →
      Scan.scan_library_path db true root dirs probe hasJob cancel tNow =
        { stats := ⟨0, 0, 0, 0, true⟩, db := db, dbBeforeReap := db,
          processed := [], probed := [] }) := by
  constructor
  · intro hc r2 hr2 hdel
    cases pathOk with
    | false =>
      simp only [Scan.scan_library_path, Bool.not_false, if_true] at hc
      simp at hc
    | true =>
      cases hcf : Scan.countFiles hasJob cancel dirs 0 with
      | none =>
        rw [scan_unfold, hcf] at hr2
        exact hr2
      | some pr =>
        obtain ⟨vfs, k1⟩ := pr
        simp only [scan_unfold, hcf] at hc hr2
        split at hc
        · next hcanc =>
          rw [if_pos hcanc] at hr2
          exact ingest_nonnull_mem hasJob cancel tNow probe vfs
            { db := db, k := k1 } r2 hr2 hdel
        · simp at hc
  · intro h
    rw [scan_unfold, h]

/-- C2, witness. -/
theorem claim_C2_witness :
    Scan.scan_library_path [rowPlain] true "/m" [[rawA]] probeNone true
      (fun _ => true) 10 =
      { stats := ⟨0, 0, 0, 0, true⟩, db := [rowPlain], dbBeforeReap := [rowPlain],
        processed := [], probed := [] } :=
  (claim_C2 [rowPlain] true "/m" [[rawA]] probeNone true (fun _ => true) 10).2
    (by decide)

/-- C10.  After a non-cancelled scan with root string R, the reap step maps
every row of the pre-reap database independently: a row is soft-deleted with
the scan time exactly when it was not already soft-deleted, its path starts
with R as a character string (so an unobserved sibling root such as R2/ is
also hit), and its path was not observed; every other row is left unchanged
by the reap.  Rows whose path was not observed enter the reap exactly as they
stood before the pass, and the deleted tally counts the reaped rows. -/
theorem claim_C10 (db : List Scan.Row) (root : String)
    (dirs : List (List Scan.RawFile)) (probe : String → Scan.Metadata)
    (hasJob : Bool) (cancel : ℕ → Bool) (tNow : ℤ)
    (hca : (Scan.scan_library_path db true root dirs probe hasJob cancel
      tNow).stats.cancelled = false) :
    (Scan.scan_library_path db true root dirs probe hasJob cancel tNow).db =
      (Scan.scan_library_path db true root dirs probe hasJob cancel
        tNow).dbBeforeReap.map
        (Scan.reapRow
          (Scan.scan_library_path db true root dirs probe hasJob cancel
            tNow).processed root tNow) ∧
    (∀ r ∈ (Scan.scan_library_path db true root dirs probe hasJob cancel
        tNow).dbBeforeReap,
      ((r.deleted_at = none ∧ pyStartsWith r.file_path root = true ∧
          r.file_path ∉ (Scan.scan_library_path db true root dirs probe hasJob
            cancel tNow).processed) →
        Scan.reapRow (Scan.scan_library_path db true root dirs probe hasJob
          cancel tNow).processed root tNow r = { r with deleted_at := some tNow }) ∧
      (¬(r.deleted_at = none ∧ pyStartsWith r.file_path root = true ∧
          r.file_path ∉ (Scan.scan_library_path db true root dirs probe hasJob
            cancel tNow).processed) →
        Scan.reapRow (Scan.scan_library_path db true root dirs probe hasJob
          cancel tNow).processed root tNow r = r)) ∧
    (∀ r ∈ db, r.file_path ∉ (Scan.scan_library_path db true root dirs probe
        hasJob cancel tNow).processed →
      r ∈ (Scan.scan_library_path db true root dirs probe hasJob cancel
        tNow).dbBeforeReap) ∧
    (Scan.scan_library_path db true root dirs probe hasJob cancel
      tNow).stats.deleted =
      ((Scan.scan_library_path db true root dirs probe hasJob cancel
        tNow).dbBeforeReap.filter
        (Scan.reapHits
          (Scan.scan_library_path db true root dirs probe hasJob cancel
            tNow).processed root)).length := by
  cases hcf : Scan.countFiles hasJob cancel dirs 0 with
  | none =>
    rw [scan_unfold, hcf] at hca
    simp at hca
  | some pr =>
    obtain ⟨vfs, k1⟩ := pr
    simp only [scan_unfold, hcf] at hca ⊢
    split at hca
    · simp at hca
    · next hcanc =>
      rw [if_neg hcanc]
      refine ⟨rfl, ?_, ?_, rfl⟩
      · intro r hr
        constructor
        · rintro ⟨h1, h2, h3⟩
          have hhit : Scan.reapHits
              (Scan.ingest hasJob cancel tNow probe vfs
                { db := db, k := k1 }).scanned root r = true := by
            unfold Scan.reapHits
            simp only [h1, h2, Bool.true_and, beq_self_eq_true]
            simpa using h3
          unfold Scan.reapRow
          rw [if_pos hhit]
        · intro hn
          unfold Scan.reapRow
          rw [if_neg]
          intro hhit
          apply hn
          unfold Scan.reapHits at hhit
          simp only [Bool.and_eq_true, beq_iff_eq, Bool.not_eq_true] at hhit
          refine ⟨hhit.1.1, hhit.1.2, ?_⟩
          simpa using hhit.2
      · intro r hr hnp
        refine ingest_member_frame hasJob cancel tNow probe vfs
          { db := db, k := k1 } r hr ?_
        intro f hf hEq
        apply hnp
        rw [ingest_scanned_of_not_cancelled hasJob cancel tNow probe vfs _
          (by simpa using hcanc)]
        have : r.file_path ∈ vfs.map Scan.RawFile.path :=
          hEq ▸ List.mem_map_of_mem Scan.RawFile.path hf
        simpa using this

/-- C10, witness.  A library rooted at /m whose walk observes nothing reaps
the row at the sibling root path /m2/x.mp4, because the test is a plain
string prefix. -/
theorem claim_C10_witness :
    Scan.reapRow
        (Scan.scan_library_path [rowSibling] true "/m" [[]] probeNone false
          (fun _ => false) 10).processed "/m" 10 rowSibling =
      { rowSibling with deleted_at := some 10 } ∧
    (Scan.scan_library_path [rowSibling] true "/m" [[]] probeNone false
      (fun _ => false) 10).db =
      (Scan.scan_library_path [rowSibling] true "/m" [[]] probeNone false
        (fun _ => false) 10).dbBeforeReap.map
        (Scan.reapRow
          (Scan.scan_library_path [rowSibling] true "/m" [[]] probeNone false
            (fun _ => false) 10).processed "/m" 10) ∧
    (Scan.scan_library_path [rowSibling] true "/m" [[]] probeNone false
      (fun _ => false) 10).stats.deleted = 1 := by
  have H := claim_C10 [rowSibling] "/m" [[]] probeNone false (fun _ => false) 10
    (by decide)
  refine ⟨?_, H.1, ?_⟩
  · exact (H.2.1 rowSibling (by decide)).1 ⟨rfl, by decide, by decide⟩
  · rw [H.2.2.2]
    decide

/-- C3.  A present requested_resolution short-circuits build_stream_info into
a successfully returned full transcode whose settings carry codecs h264/aac,
the requested max_width and max_height, and is_remux_only false, whatever the
profile and the media are: this branch returns before any compatibility check
runs, so no check can fail it and no exception can escape it. -/
theorem claim_C3 (dp : SB.DeviceProfileData) (m : SB.MediaFileRec)
    (edp eds etr : Bool) (r : SB.RequestedResolution) :
    ∃ si, SB.build_stream_info dp m edp eds etr (some r) = Except.ok si ∧
      si.PlayMethod = SB.PlayMethod.transcode ∧
      si.TranscodeSettings =
        some { VideoCodec := some "h264", AudioCodec := some "aac",
               MaxWidth := r.width, MaxHeight := r.height, IsRemuxOnly := false } :=
  ⟨_, rfl, rfl, rfl⟩

/-- C5, counterexample.  cleanup_transcode_files deletes a completed job whose
last_accessed_at is not older than any positive age threshold (it was touched
at the very moment of the sweep), and also deletes a pending job, which is in
no terminal status; so the cleaned set is not the terminal jobs older than
the default 24-hour max age. -/
theorem claim_C5_counterexample :
    TC.cleanup_transcode_files [jobCompletedFresh, jobPendingFresh] = ([], 2) ∧
    ¬((1000 : ℤ) - jobCompletedFresh.last_accessed_at > 24 * 3600) ∧
    jobPendingFresh.status = TC.TJStatus.pending := by
  refine ⟨by decide, by decide, rfl⟩

/-- C5, amended.  Over pairwise-distinct job ids, cleanup_transcode_files
removes exactly the jobs whose status is completed, failed, cancelled or
pending and whose output_path is set, regardless of last_accessed_at, and
returns their number. -/
theorem claim_C5 (db : List TC.TJob) (hnodup : (db.map TC.TJob.id).Nodup) :
    TC.cleanup_transcode_files db =
      (db.filter (fun j => !TC.cleanupEligible j),
        (db.filter TC.cleanupEligible).length) := by
  show ((db.filter TC.cleanupEligible).foldl
      (fun acc j => acc.eraseP (fun r => r.id == j.id)) db,
    (db.filter TC.cleanupEligible).length) = _
  rw [cleanup_fold db TC.cleanupEligible hnodup]

/-- C5, witness. -/
theorem claim_C5_witness :
    TC.cleanup_transcode_files [jobCompletedFresh, jobRunningOne] =
      ([jobRunningOne], 1) := by
  rw [claim_C5 [jobCompletedFresh, jobRunningOne] (by decide)]
  decide

/-- C7, counterexample.  A cancellation request against a job whose status is
already cancelled does not return success: the endpoint rejects it with a
409 conflict. -/
theorem claim_C7_counterexample :
    Jobs.cancel_job regCancelled "j" 0 = (.httpError 409, regCancelled) ∧
    ∀ b, (Jobs.cancel_job regCancelled "j" 0).1 ≠ .response b := by
  exact ⟨rfl, by decide⟩

/-- C7, amended.  An unknown job yields 404; a job in any non-running status,
the cancelled status included, yields a 409 conflict with no effect on the
registry; and a request against a running job sets the cancellation flag,
records cancelled_at, and reports success. -/
theorem claim_C7 :
    (∀ (reg : Jobs.Registry) (job_id : String) (now : ℤ),
      Jobs.getState reg job_id = none →
      Jobs.cancel_job reg job_id now = (.httpError 404, reg)) ∧
    (∀ (reg : Jobs.Registry) (job_id : String) (now : ℤ) (st : Jobs.JobState),
      Jobs.getState reg job_id = some st → st.status ≠ "running" →
      Jobs.cancel_job reg job_id now = (.httpError 409, reg)) ∧
    (∀ (reg : Jobs.Registry) (job_id : String) (now : ℤ) (st : Jobs.JobState),
      Jobs.getState reg job_id = some st → st.status = "running" →
      (Jobs.cancel_job reg job_id now).1 = .response true ∧
      Jobs.getState (Jobs.cancel_job reg job_id now).2 job_id =
        some { st with cancellation_requested := true, cancelled_at := some now }) := by
  refine ⟨?_, ?_, ?_⟩
  · intro reg job_id now h
    simp [Jobs.cancel_job, h]
  · intro reg job_id now st h hst
    simp [Jobs.cancel_job, h, hst]
  · intro reg job_id now st h hst
    have hreq : Jobs.request_job_cancellation reg job_id now =
        (Jobs.setState reg job_id
          { st with cancellation_requested := true, cancelled_at := some now },
          true) := by
      simp [Jobs.request_job_cancellation, h, hst]
    constructor
    · simp [Jobs.cancel_job, h, hst, hreq]
    · simp only [Jobs.cancel_job, h, hst]
      simp only [hreq]
      simpa [hst] using getState_setState reg job_id st
        { st with cancellation_requested := true, cancelled_at := some now } h

/-- C8, counterexample.  With direct play and direct stream enabled but both
failing and transcoding disallowed, build_stream_info returns (no exception
is raised on this input) play_method = transcode with a transcode-reasons
list that is the accumulated failure reasons followed by direct_play_error;
it is not the single reason direct_play_error. -/
theorem claim_C8_counterexample :
    SB.build_stream_info dpEmpty mediaMkvH264 true true false none =
      .ok { PlayMethod := SB.PlayMethod.transcode
            Container := "mkv"
            TranscodingType := some "full"
            TranscodeReasons := [.containerNotSupported, .videoCodecNotSupported,
              .directPlayError] } ∧
    [SB.TranscodeReason.containerNotSupported, .videoCodecNotSupported,
      .directPlayError] ≠ [SB.TranscodeReason.directPlayError] := by
  refine ⟨rfl, by decide⟩

/-- C8, amended.  Whenever the enabled checks all return (none of them raises
the colour-metadata AttributeError), direct play and direct stream both
failed, the audio-only fallback did not match, and transcoding is disallowed
by the options, build_stream_info still returns play_method = transcode, and
its transcode-reasons list is the accumulated direct-play and direct-stream
failure reasons followed by a final direct_play_error (so the list is the
single direct_play_error exactly when nothing accumulated earlier, e.g. when
both checks were disabled). -/
theorem claim_C8 (dp : SB.DeviceProfileData) (m : SB.MediaFileRec) (edp eds : Bool)
    (rdp rds : SB.PlaybackResult) (vo : Bool × Bool)
    (h1 : edp = true → SB.checkDirectPlay dp m = .ok rdp ∧ rdp.can_play = false)
    (h2 : eds = true → SB.checkDirectStream dp m = .ok rds ∧ rds.can_play = false)
    (h3 : eds = true →
      SB.needsAudioTranscode dp m = .ok vo ∧ (vo.1 && !vo.2) = false) :
    SB.build_stream_info dp m edp eds false none =
      .ok { PlayMethod := SB.PlayMethod.transcode
            Container := SB.containerOf m
            RunTimeTicks := SB.runtimeTicks m.duration
            Bitrate := m.bitrate
            TranscodingType := some "full"
            TranscodeReasons :=
              ((if edp then rdp.reasons else []) ++
                (if eds then rds.reasons else [])) ++
              [SB.TranscodeReason.directPlayError] } := by
  cases edp with
  | false =>
    cases eds with
    | false => simp [SB.build_stream_info]
    | true =>
      obtain ⟨e2, f2⟩ := h2 rfl
      obtain ⟨e3, f3⟩ := h3 rfl
      simp [SB.build_stream_info, e2, f2, e3, f3]
  | true =>
    obtain ⟨e1, f1⟩ := h1 rfl
    cases eds with
    | false => simp [SB.build_stream_info, e1, f1]
    | true =>
      obtain ⟨e2, f2⟩ := h2 rfl
      obtain ⟨e3, f3⟩ := h3 rfl
      simp [SB.build_stream_info, e1, f1, e2, f2, e3, f3]

/-- C8, witness. -/
theorem claim_C8_witness :
    SB.build_stream_info dpEmpty mediaMkvH264 true true false none =
      .ok { PlayMethod := SB.PlayMethod.transcode
            Container := SB.containerOf mediaMkvH264
            RunTimeTicks := SB.runtimeTicks mediaMkvH264.duration
            Bitrate := mediaMkvH264.bitrate
            TranscodingType := some "full"
            TranscodeReasons :=
              ((if true then [SB.TranscodeReason.containerNotSupported] else []) ++
                (if true then [SB.TranscodeReason.videoCodecNotSupported] else [])) ++
              [SB.TranscodeReason.directPlayError] } :=
  claim_C8 dpEmpty mediaMkvH264 true true
    ⟨false, [SB.TranscodeReason.containerNotSupported]⟩
    ⟨false, [SB.TranscodeReason.videoCodecNotSupported]⟩
    (false, true)
    (fun _ => ⟨rfl, rfl⟩) (fun _ => ⟨rfl, rfl⟩) (fun _ => ⟨rfl, rfl⟩)

/-- C9, counterexample.  On a stored file of size 0 the request
Range: bytes=0-0 is rejected with 416; it does not produce a one-byte 206,
so the claim fails for files of size 0 (its own start-beyond-size clause
already demands the 416 there). -/
theorem claim_C9_counterexample :
    Stream.stream_video 0 [] (some "bytes=0-0") =
      .httpError 416 "Invalid range" := by
  rfl

/-- C9, amended.  For every stored file of size S at least 1 (a one-byte 206
presupposes a byte): bytes=0-0 yields a 206 with a one-byte body,
Content-Range bytes 0-0/S and Accept-Ranges bytes; every range whose parsed
start position is at least S yields 416; and a range whose end position is
missing is served through the last byte S - 1. -/
theorem claim_C9 (S : ℤ) (hS : 1 ≤ S) (data : List ℕ)
    (hlen : (data.length : ℤ) = S) :
    (Stream.stream_video S data (some "bytes=0-0") =
      .ok 206 (some ("bytes 0-0/" ++ toString S)) "1" "bytes" (data.take 1) ∧
      (data.take 1).length = 1) ∧
    (∀ (h : String) (st en : ℤ), Stream.parseRange S h = some (st, en) →
      st ≥ S → Stream.stream_video S data (some h) =
        .httpError 416 "Invalid range") ∧
    (∀ (h : String) (st en : ℤ), Stream.parseRange S h = some (st, en) →
      (pySplit (pyReplace h "bytes=" "") "-")[1]? = some "" →
      en = S - 1 ∧
      (0 ≤ st → st < S → Stream.stream_video S data (some h) =
        .ok 206
          (some ("bytes " ++ toString st ++ "-" ++ toString (S - 1) ++ "/" ++
            toString S))
          (toString (S - st)) "bytes" (data.drop st.toNat))) := by
  refine ⟨⟨?_, ?_⟩, ?_, ?_⟩
  · have hpr : Stream.parseRange S "bytes=0-0" = some (0, 0) := rfl
    simp only [Stream.stream_video, hpr]
    have hc : (decide ((0 : ℤ) ≥ S) || decide ((0 : ℤ) ≥ S) ||
        decide ((0 : ℤ) > 0)) = false := by
      simp only [Bool.or_eq_false_iff, decide_eq_false_iff_not]
      omega
    rw [hc]
    simp only [Bool.false_eq_true, if_false]
    have : Stream.rangeRead data 0 0 = data.take 1 := by
      simp [Stream.rangeRead]
    rw [this]
    rfl
  · simp only [List.length_take]
    omega
  · intro h st en hpr hst
    simp only [Stream.stream_video, hpr]
    have hc : (decide (st ≥ S) || decide (en ≥ S) || decide (st > en)) = true := by
      simp only [Bool.or_eq_true, decide_eq_true_eq]
      left; left; exact hst
    rw [hc]
    rfl
  · intro h st en hpr hmiss
    have hen : en = S - 1 := by
      have hpr2 := hpr
      simp only [Stream.parseRange] at hpr2
      rw [hmiss] at hpr2
      revert hpr2
      split
      · intro hpr2; exact absurd hpr2 (by simp)
      · intro hpr2
        simp at hpr2
        exact hpr2.2.symm
    refine ⟨hen, ?_⟩
    intro h0 hlt
    subst hen
    simp only [Stream.stream_video, hpr]
    have hc : (decide (st ≥ S) || decide ((S - 1 : ℤ) ≥ S) ||
        decide (st > S - 1)) = false := by
      simp only [Bool.or_eq_false_iff, decide_eq_false_iff_not]
      omega
    rw [hc]
    simp only [Bool.false_eq_true, if_false]
    have hbody : Stream.rangeRead data st (S - 1) = data.drop st.toNat := by
      unfold Stream.rangeRead
      apply List.take_of_length_le
      simp only [List.length_drop]
      omega
    have hcl : (S - 1 - st + 1) = S - st := by omega
    rw [hbody, hcl]

/-- C9, witness. -/
theorem claim_C9_witness :
    (Stream.stream_video 2 [7, 9] (some "bytes=0-0") =
      .ok 206 (some "bytes 0-0/2") "1" "bytes" [7]) ∧
    (Stream.stream_video 2 [7, 9] (some "bytes=2-") =
      .httpError 416 "Invalid range") ∧
    (Stream.stream_video 2 [7, 9] (some "bytes=1-") =
      .ok 206 (some "bytes 1-1/2") "1" "bytes" [9]) := by
  have H := claim_C9 2 (by omega) [7, 9] (by simp)
  refine ⟨?_, ?_, ?_⟩
  · have h1 := H.1.1
    simpa using h1
  · exact H.2.1 "bytes=2-" 2 1 rfl (by omega)
  · have h3 := (H.2.2 "bytes=1-" 1 1 rfl rfl).2 (by omega) (by omega)
    simpa using h3

/-- A progress line at absolute encoder time 20 s as parsed against a 100 s
total duration. -/
def progressW : TC.ProgressData :=
  { frame := some 100
    transcoded_duration := some 20
    progress_percent := some 20 }

/-- Helper for C6: for a progress line whose time= pattern matched, the parsed
dictionary carries the absolute encoder time in seconds, and, when the total
duration is known and positive, the percentage computed from that absolute
time. -/
theorem parse_progress_time_fields (l : TC.FFmpegLine) (dur : Option ℚ)
    (p : TC.ProgressData) (h m : ℕ) (sec : ℚ)
    (hl : l.timeMatch = some (h, m, sec))
    (hp : TC.parse_ffmpeg_progress l dur = some p) :
    p.transcoded_duration = some ((h : ℚ) * 3600 + m * 60 + sec) ∧
    ∀ d, dur = some d → d > 0 →
      p.progress_percent = some (min 100 (((h : ℚ) * 3600 + m * 60 + sec) / d * 100)) := by
  obtain ⟨hasF, hasT, fm, fpm, tm, bm⟩ := l
  simp only at hl
  subst hl
  simp only [TC.parse_ffmpeg_progress] at hp
  cases hasF <;> cases hasT <;> simp only [Bool.and_self, Bool.and_false,
    Bool.false_and, Bool.not_false, Bool.not_true, Bool.false_eq_true,
    if_true, if_false, reduceCtorEq] at hp
  cases bm with
  | none =>
    rw [if_neg (by cases dur <;> simp [TC.ProgressData.mk.injEq]; split <;> simp)] at hp
    simp only [Option.some.injEq] at hp
    subst hp
    constructor
    · cases dur with
      | none => simp
      | some d =>
        by_cases hd : d ≠ 0 ∧ d > 0 <;> simp [hd]
    · intro d hdur hdpos
      subst hdur
      have hd : d ≠ 0 ∧ d > 0 := ⟨ne_of_gt hdpos, hdpos⟩
      simp [hd]
  | some b =>
    rw [if_neg (by cases dur <;> simp [TC.ProgressData.mk.injEq])] at hp
    simp only [Option.some.injEq] at hp
    subst hp
    constructor
    · cases dur with
      | none => simp
      | some d =>
        by_cases hd : d ≠ 0 ∧ d > 0 <;> simp [hd]
    · intro d hdur hdpos
      subst hdur
      have hd : d ≠ 0 ∧ d > 0 := ⟨ne_of_gt hdpos, hdpos⟩
      simp [hd]

/-- C6, counterexample.  For a job with start_time 10 and media duration 100,
the line time=00:00:20 persists transcoded_duration 10 (job-relative) but
progress_percent 20, computed from the absolute encoder time; the claim
demands min(100, 10 / 100 * 100) = 10. -/
theorem progressW_parse :
    TC.parse_ffmpeg_progress lineTime20 (some 100) = some progressW := by
  have h1 : min (100 : ℚ) (((0 : ℕ) : ℚ) * 3600 + ((0 : ℕ) : ℚ) * 60 + 20) = 20 := by
    norm_num [min_def]
  simp [TC.parse_ffmpeg_progress, lineTime20, progressW, TC.ProgressData.mk.injEq,
    min_def]
  norm_num

theorem claim_C6_counterexample :
    TC.monitorStep (some 10) lineTime20 (some 100) =
      some { frame := some 100, transcoded_duration := some 10,
             progress_percent := some 20 } ∧
    (20 : ℚ) ≠ min 100 ((10 : ℚ) / 100 * 100) := by
  constructor
  · rw [TC.monitorStep, progressW_parse]
    simp [TC.monitorConvert, progressW, TC.ProgressData.mk.injEq, max_def]
    norm_num
  · norm_num [min_def]

/-- C6, amended.  For every parsed progress line of a job whose persisted
start_time is S, the persisted transcoded_duration equals
max(0, absolute_encoder_time - S), hence is never negative; the persisted
progress_percent, however, equals min(100, absolute_encoder_time / duration
* 100) computed from the absolute (not job-relative) encoder time, whenever
the media duration is known and positive. -/
theorem claim_C6 (l : TC.FFmpegLine) (dur : Option ℚ) (S : ℚ)
    (p : TC.ProgressData) (h m : ℕ) (sec : ℚ)
    (hl : l.timeMatch = some (h, m, sec))
    (hp : TC.parse_ffmpeg_progress l dur = some p) :
    (TC.monitorConvert (some S) p).transcoded_duration =
      some (max 0 (((h : ℚ) * 3600 + m * 60 + sec) - S)) ∧
    (∀ q, (TC.monitorConvert (some S) p).transcoded_duration = some q → 0 ≤ q) ∧
    (∀ d, dur = some d → d > 0 →
      (TC.monitorConvert (some S) p).progress_percent =
        some (min 100 (((h : ℚ) * 3600 + m * 60 + sec) / d * 100))) := by
  obtain ⟨htd, hpp⟩ := parse_progress_time_fields l dur p h m sec hl hp
  have hconv : TC.monitorConvert (some S) p =
      { p with transcoded_duration := some (max 0 (((h : ℚ) * 3600 + m * 60 + sec) - S)) } := by
    simp [TC.monitorConvert, htd]
  refine ⟨by rw [hconv], ?_, ?_⟩
  · intro q hq
    rw [hconv] at hq
    simp only [Option.some.injEq] at hq
    subst hq
    exact le_max_left 0 _
  · intro d hdur hdpos
    rw [hconv]
    simpa using hpp d hdur hdpos

/-- C6, witness. -/
theorem claim_C6_witness :
    (TC.monitorConvert (some 10) progressW).transcoded_duration = some 10 ∧
    (TC.monitorConvert (some 10) progressW).progress_percent = some 20 := by
  have H := claim_C6 lineTime20 (some 100) 10 progressW 0 0 20 rfl progressW_parse
  constructor
  · rw [H.1]; norm_num [max_def]
  · rw [H.2.2 100 rfl (by norm_num)]; norm_num [min_def]

/-- C4, counterexample.  Evaluating a required Equals condition on the
VideoRange property against a video track whose colour columns are NULL does
not fail or pass the condition: the property read raises an uncaught
AttributeError (None.lower() runs before the try block), so the evaluation
produces no boolean at all and the surrounding constraint check aborts. -/
theorem claim_C4_counterexample :
    SB.evaluateCondition trackNullColour condVideoRangeEq = .error () ∧
    (∀ b, SB.evaluateCondition trackNullColour condVideoRangeEq ≠ .ok b) ∧
    SB.checkConditions trackNullColour [condVideoRangeEq] = .error () ∧
    trackNullColour.color_space = some none := by
  have h : SB.evaluateCondition trackNullColour condVideoRangeEq = .error () := rfl
  refine ⟨h, ?_, rfl, rfl⟩
  intro b hb
  rw [h] at hb
  exact Except.noConfusion hb

/-- C4, amended.  Condition-evaluation semantics of the decision engine: an
evaluation raises an uncaught AttributeError exactly when the condition's
property is VideoRange and the track's color_space or color_primaries column
is NULL; over evaluations that return, the four operators fail exactly as
specified (over values that convert), an unknown actual value passes, a
returned constraint check has can_play false exactly when some failing
condition is required, a list whose failures are all non-required returns
every mapped reason without blocking, and a failing required condition stops
evaluation at once with its mapped reason. -/
theorem claim_C4 :
    (∀ (t : SB.MediaTrack) (c : SB.DeviceProfileCondition),
      (SB.evaluateCondition t c = .error () ↔
        c.Property = "VideoRange" ∧
          (t.color_space = some none ∨ t.color_primaries = some none))) ∧
    (∀ (t : SB.MediaTrack) (c : SB.DeviceProfileCondition) (a : SB.Val) (x y : ℚ),
      c.Condition = "LessThanEqual" →
      SB.getTrackPropertyValue t c.Property = .ok (some a) →
      SB.pyFloatOfVal a = some x → pyFloatOfString c.Value = some y →
      (SB.evaluateCondition t c = .ok true ↔ x > y)) ∧
    (∀ (t : SB.MediaTrack) (c : SB.DeviceProfileCondition) (a : SB.Val),
      c.Condition = "Equals" →
      SB.getTrackPropertyValue t c.Property = .ok (some a) →
      (SB.evaluateCondition t c = .ok true ↔ SB.pyStrOfVal a ≠ c.Value)) ∧
    (∀ (t : SB.MediaTrack) (c : SB.DeviceProfileCondition) (a : SB.Val),
      c.Condition = "EqualsAny" →
      SB.getTrackPropertyValue t c.Property = .ok (some a) →
      (SB.evaluateCondition t c = .ok true ↔
        ¬ (pySplit c.Value "|").contains (SB.pyStrOfVal a) = true)) ∧
    (∀ (t : SB.MediaTrack) (c : SB.DeviceProfileCondition) (a : SB.Val) (x y : ℚ),
      c.Condition = "GreaterThanEqual" →
      SB.getTrackPropertyValue t c.Property = .ok (some a) →
      SB.pyFloatOfVal a = some x → pyFloatOfString c.Value = some y →
      (SB.evaluateCondition t c = .ok true ↔ x < y)) ∧
    (∀ (t : SB.MediaTrack) (c : SB.DeviceProfileCondition),
      SB.getTrackPropertyValue t c.Property = .ok none →
      SB.evaluateCondition t c = .ok false) ∧
    (∀ (t : SB.MediaTrack) (conds : List SB.DeviceProfileCondition)
        (r : SB.PlaybackResult),
      SB.checkConditions t conds = .ok r →
      (r.can_play = false ↔
        ∃ c ∈ conds, SB.evaluateCondition t c = .ok true ∧ c.IsRequired = true)) ∧
    (∀ (t : SB.MediaTrack) (conds : List SB.DeviceProfileCondition),
      (∀ c ∈ conds, SB.evaluateCondition t c ≠ .error ()) →
      (∀ c ∈ conds, SB.evaluateCondition t c = .ok true → c.IsRequired = false) →
      SB.checkConditions t conds =
        .ok ⟨true, conds.flatMap (fun c =>
          match SB.evaluateCondition t c with
          | .ok true => SB.reasonListOf c
          | _ => [])⟩) ∧
    (∀ (t : SB.MediaTrack) (c : SB.DeviceProfileCondition)
        (conds : List SB.DeviceProfileCondition),
      SB.evaluateCondition t c = .ok true → c.IsRequired = true →
      SB.checkConditions t (c :: conds) = .ok ⟨false, SB.reasonListOf c⟩) := by
  refine ⟨?_, ?_, ?_, ?_, ?_, ?_, ?_, ?_, ?_⟩
  · exact fun t c => evaluateCondition_error t c
  · intro t c a x y hc hget hx hy
    simp [SB.evaluateCondition, hget, hc, hx, hy]
  · intro t c a hc hget
    simp [SB.evaluateCondition, hget, hc]
  · intro t c a hc hget
    simp [SB.evaluateCondition, hget, hc]
  · intro t c a x y hc hget hx hy
    simp [SB.evaluateCondition, hget, hc, hx, hy]
  · intro t c hget
    simp [SB.evaluateCondition, hget]
  · intro t conds
    induction conds with
    | nil =>
      intro r h
      have hr : r = ⟨true, []⟩ := by
        simpa [SB.checkConditions] using h.symm
      subst hr
      simp
    | cons c rest ih =>
      intro r h
      simp only [SB.checkConditions] at h
      cases he : SB.evaluateCondition t c with
      | error e =>
        rw [he] at h
        exact absurd h (by simp)
      | ok b =>
        rw [he] at h
        cases b with
        | true =>
          by_cases hreq : c.IsRequired = true
          · rw [if_pos hreq] at h
            have hr : r = ⟨false, SB.reasonListOf c⟩ := by simpa using h.symm
            subst hr
            exact ⟨fun _ => ⟨c, List.mem_cons_self c rest, he, hreq⟩, fun _ => rfl⟩
          · rw [if_neg hreq] at h
            cases hrest : SB.checkConditions t rest with
            | error e =>
              rw [hrest] at h
              exact absurd h (by simp)
            | ok r2 =>
              rw [hrest] at h
              have hr : r = ⟨r2.can_play, SB.reasonListOf c ++ r2.reasons⟩ := by
                simpa using h.symm
              subst hr
              have ihr := ih r2 hrest
              constructor
              · intro hcp
                obtain ⟨g, hg, hgev, hgr⟩ := ihr.mp hcp
                exact ⟨g, List.mem_cons_of_mem c hg, hgev, hgr⟩
              · rintro ⟨g, hg, hgev, hgr⟩
                rcases List.mem_cons.mp hg with hgc | hgrest
                · subst hgc
                  exact absurd hgr hreq
                · exact ihr.mpr ⟨g, hgrest, hgev, hgr⟩
        | false =>
          have ihr := ih r h
          constructor
          · intro hcp
            obtain ⟨g, hg, hgev, hgr⟩ := ihr.mp hcp
            exact ⟨g, List.mem_cons_of_mem c hg, hgev, hgr⟩
          · rintro ⟨g, hg, hgev, hgr⟩
            rcases List.mem_cons.mp hg with hgc | hgrest
            · subst hgc
              rw [he] at hgev
              exact absurd hgev (by simp)
            · exact ihr.mpr ⟨g, hgrest, hgev, hgr⟩
  · intro t conds
    induction conds with
    | nil => intro _ _; rfl
    | cons c rest ih =>
      intro h0 h1
      have ihr := ih (fun g hg => h0 g (List.mem_cons_of_mem c hg))
        (fun g hg => h1 g (List.mem_cons_of_mem c hg))
      cases he : SB.evaluateCondition t c with
      | error e =>
        cases e
        exact absurd he (h0 c (List.mem_cons_self c rest))
      | ok b =>
        cases b with
        | true =>
          have hreq : c.IsRequired = false := h1 c (List.mem_cons_self c rest) he
          simp only [SB.checkConditions, he, hreq, ihr]
          simp [he]
        | false =>
          simp only [SB.checkConditions, he, ihr]
          simp [he]
  · intro t c conds he hr
    simp [SB.checkConditions, he, hr]

/-- C4, witness. -/
theorem claim_C4_witness :
    (SB.evaluateCondition trackNullColour condVideoRangeEq = .error () ↔
      condVideoRangeEq.Property = "VideoRange" ∧
        (trackNullColour.color_space = some none ∨
          trackNullColour.color_primaries = some none)) ∧
    (SB.evaluateCondition trackLevel41 condLevelLE40 = .ok true ↔ (41 : ℚ) > 40) ∧
    (SB.evaluateCondition trackLevel41 condWidthAny = .ok true ↔
      ¬ (pySplit condWidthAny.Value "|").contains
          (SB.pyStrOfVal (SB.Val.num ((1920 : ℤ) : ℚ))) = true) ∧
    SB.checkConditions trackLevel41 [condLevelLE40] =
      .ok ⟨false, [SB.TranscodeReason.videoLevelNotSupported]⟩ := by
  have h41 : SB.pyFloatOfVal (SB.Val.vstr "41") = some ((1 : ℚ) * ((41 : ℕ) : ℚ)) := rfl
  have h40 : pyFloatOfString condLevelLE40.Value = some ((1 : ℚ) * ((40 : ℕ) : ℚ)) := rfl
  norm_num at h41 h40
  have H1 := claim_C4.2.1 trackLevel41 condLevelLE40 (.vstr "41") 41 40 rfl rfl h41 h40
  refine ⟨claim_C4.1 trackNullColour condVideoRangeEq, H1, ?_, ?_⟩
  · exact claim_C4.2.2.2.1 trackLevel41 condWidthAny (SB.Val.num ((1920 : ℤ) : ℚ)) rfl rfl
  · have hev : SB.evaluateCondition trackLevel41 condLevelLE40 = .ok true :=
      H1.mpr (by norm_num)
    have H := claim_C4.2.2.2.2.2.2.2.2 trackLevel41 condLevelLE40 [] hev rfl
    simpa [SB.reasonListOf, SB.conditionToTranscodeReason, condLevelLE40] using H

/-- C7, witness. -/
theorem claim_C7_witness :
    (Jobs.cancel_job regRunning "j" 5).1 = .response true ∧
    Jobs.getState (Jobs.cancel_job regRunning "j" 5).2 "j" =
      some { stRunning with cancellation_requested := true, cancelled_at := some 5 } :=
  claim_C7.2.2 regRunning "j" 5 stRunning rfl rfl

end Ferelix
